import Mathlib

/-!
Verification development for the SEC EDGAR full-text-search scraper
(`src/edgar.py`, class `SecEdgarScraper`).

Dates are embedded as natural numbers (proleptic ordinal day numbers, the
same quantity Python's `datetime.date.toordinal` returns): `timedelta(days=1)`
is `+ 1` and `(end - start).days` is `e - s`.  Every date subtraction in the
source occurs after the `start_date > end_date` guard has passed, so natural
subtraction agrees with Python's.

The helpers `split_date_range_in_n` and `try_or_none` are imported by
`edgar.py` from `src/utils.py`, a file of this repository that is not part of
the provided sources; `split_date_range_in_n` is therefore modelled from the
spec (see its doc comment below).
-/

/-! ## Definitions: the shallow embedding of the program -/

/-- Sub-intervals derived from a list of boundary dates, tail part: every
sub-interval after the first starts the day after the previous boundary
(`start = d + timedelta(days=1)`, line 265 of `edgar.py`), and ends at the
next boundary (`end = dates[i + 1]`, line 266).  The `IndexError` raised by
`dates[i + 1]` on the last index is caught by `except IndexError: pass`
(lines 278-279), which is why the last boundary only serves as an endpoint:
this function stops exactly there. -/
def subIntervalsTail : List ℕ → List (ℕ × ℕ)
  | a :: b :: t => (a + 1, b) :: subIntervalsTail (b :: t)
  | _ => []

/-- Sub-intervals derived from a list of boundary dates.  The first
sub-interval starts at the first boundary itself (`start = d if i == 0`,
line 265 of `edgar.py`). -/
def subIntervals : List ℕ → List (ℕ × ℕ)
  | a :: b :: t => (a, b) :: subIntervalsTail (b :: t)
  | _ => []

/-- Modelled from the spec: `split_date_range_in_n` lives in `src/utils.py`,
which is not among the provided sources.  Per spec 4.3 step 4 the split
produces `n` contiguous sub-intervals covering `[start, end]` exactly, with
sub-interval `i > 0` starting the day after the previous one's end; combined
with the boundary policy of `_generate_search_requests` (lines 263-279) this
means the helper yields `n` evenly spaced boundary dates starting at `start`
(`start + (end - start) * i / n` for `i < n`) followed by `end`.  For `n = 0`
the loop body never runs and only `end` is yielded, so the split "silently
produces no sub-interval" (spec 9, degenerate single-day case). -/
def split_date_range_in_n (s e n : ℕ) : List ℕ :=
  ((List.range n).map (fun i => s + (e - s) * i / n)) ++ [e]

/-- `DEFAULT_BATCHES_NUMBER` from `edgar.py` line 36. -/
def DEFAULT_BATCHES_NUMBER : ℕ := 2

/-- `num_batches = min(((end_date - start_date).days, DEFAULT_BATCHES_NUMBER))`,
`edgar.py` line 259. -/
def numBatches (s e : ℕ) : ℕ := min (e - s) DEFAULT_BATCHES_NUMBER

/-- The sub-intervals one saturated interval `[s, e]` is split into
(`edgar.py` lines 259-266). -/
def mkSubIntervals (s e : ℕ) : List (ℕ × ℕ) :=
  subIntervals (split_date_range_in_n s e (numBatches s e))

/-- Outcome of one `fetch_first_page_results_number` call, as observed by
`_generate_search_requests` (lines 245-250): a parsed count, a `ValueError`
while parsing a seemingly non-empty results surface, a `PageCheckFailedError`
(verification retries exhausted), or any other exception (e.g. a missing
element while reading the count). -/
inductive FetchOutcome
  | count (n : ℕ)
  | parseError
  | pageCheckFailed
  | otherError
deriving DecidableEq

/-- Exceptions that can propagate out of `_generate_search_requests`:
the `ValueError` of `_generate_request_args` when `start_date > end_date`
(line 126), a `PageCheckFailedError` re-raised by
`fetch_first_page_results_number` (line 387), or any other re-raised
exception (line 396).  Only `IndexError` (the loop sentinel) and the
count-parse `ValueError` are ever caught inside the partitioner. -/
inductive ExnKind
  | invalidRange
  | pageCheckFailed
  | otherError
deriving DecidableEq

/-- Partitioner state: `idx` counts fetches performed so far (it indexes the
oracle of fetch outcomes), `finalized` is `self.search_requests` with each
finalized query tracked by the date interval its request string encodes
(the string itself is `generate_request_args` applied to that interval with
`page_number = 1`, see `finalized_request_args` below), and
`droppedDegenerate` is pure instrumentation recording whether a saturated
zero-length interval was ever split into nothing and silently dropped. -/
structure PartState where
  idx : ℕ
  finalized : List (ℕ × ℕ)
  droppedDegenerate : Bool
deriving DecidableEq

/-- Result of running the partitioner: normal return, an uncaught exception
(with the state at raise time), or fuel exhaustion (the Python recursion has
no fuel bound; `outOfFuel` for every fuel witnesses non-termination). -/
inductive RunResult
  | ok (st : PartState)
  | exn (k : ExnKind) (st : PartState)
  | outOfFuel
deriving DecidableEq

/-- State change for a fetch attempt that raised: the oracle position is
consumed. -/
def bump (st : PartState) : PartState := { st with idx := st.idx + 1 }

/-- State change for a below-cap interval: consume the fetch, append the
interval's query to `self.search_requests` (`edgar.py` line 257). -/
def finalizeStep (st : PartState) (s e : ℕ) : PartState :=
  { st with idx := st.idx + 1, finalized := st.finalized ++ [(s, e)] }

/-- State change for a saturated interval that is split: consume the fetch;
record (instrumentation only) whether the split was the degenerate
zero-batch one that drops the branch. -/
def splitStep (st : PartState) (s e : ℕ) : PartState :=
  { st with idx := st.idx + 1,
            droppedDegenerate := st.droppedDegenerate || (numBatches s e == 0) }

/-- Shallow embedding of `SecEdgarScraper._generate_search_requests`
(`edgar.py` lines 205-279), written as a depth-first worklist over pending
intervals, which consumes fetches in exactly the order of the Python
recursion.  Steps for the head interval `(s, e)`:
the `start_date > end_date` guard of `_generate_request_args` (line 125)
raises an uncaught `ValueError`; a `PageCheckFailedError` or any unexpected
exception from `fetch_first_page_results_number` propagates (only
`ValueError` is caught, lines 245-250, and only `IndexError` is caught in
the split loop, lines 278-279); a count-parse `ValueError` is mapped to
`num_results = 10000` (line 250) and therefore splits; a count below 10000
finalizes the interval (line 257); otherwise the interval is replaced by its
sub-intervals (lines 259-277), processed before the remaining work. -/
def generate_search_requests (O : ℕ → FetchOutcome) :
    ℕ → List (ℕ × ℕ) → PartState → RunResult
  | _, [], st => .ok st
  | 0, _ :: _, _ => .outOfFuel
  | fuel + 1, (s, e) :: rest, st =>
    if e < s then .exn .invalidRange st
    else
      match O st.idx with
      | .pageCheckFailed => .exn .pageCheckFailed (bump st)
      | .otherError => .exn .otherError (bump st)
      | .count n =>
        if n < 10000 then
          generate_search_requests O fuel rest (finalizeStep st s e)
        else
          generate_search_requests O fuel (mkSubIntervals s e ++ rest) (splitStep st s e)
      | .parseError =>
        generate_search_requests O fuel (mkSubIntervals s e ++ rest) (splitStep st s e)

/-- The scraper's initial partitioner state for a fresh instance
(`self.search_requests = []`, `edgar.py` line 42). -/
def initPartState : PartState := ⟨0, [], false⟩

/-- A point is covered by a list of closed intervals. -/
def covers (l : List (ℕ × ℕ)) (x : ℕ) : Prop := ∃ p ∈ l, p.1 ≤ x ∧ x ≤ p.2

/-- An oracle that always reports a count below the cap. -/
def oracleBelow : ℕ → FetchOutcome := fun _ => .count 5

/-- An oracle whose every report is saturated (exactly the cap). -/
def saturatedOracle : ℕ → FetchOutcome := fun _ => .count 10000

/-- Normalization of fetch outcomes implementing the policy of `edgar.py`
lines 245-250: a count-parse `ValueError` on a seemingly non-empty surface
is handled as if the source had reported exactly 10000 results. -/
def normalizeOutcome : FetchOutcome → FetchOutcome
  | .parseError => .count 10000
  | o => o

/-- A source whose every fetch ends in a count-parse `ValueError`. -/
def oracleParseErr : ℕ → FetchOutcome := fun _ => .parseError

/-- A source whose first fetch reports a saturated count and whose second
raises an exception that is neither a verification timeout nor a count-parse
`ValueError` (e.g. a missing page element). -/
def oracleC6 : ℕ → FetchOutcome := fun i => if i = 0 then .count 10000 else .otherError

/-- A source whose every fetch raises an unexpected exception. -/
def oracleAllOther : ℕ → FetchOutcome := fun _ => .otherError

/-- Python `str.split(sep)` with an explicit one-character separator:
adjacent separators produce empty fields (used for
`innerText.split(" ")[1]`, `edgar.py` line 71). -/
def splitOnChar (sep : Char) : List Char → List (List Char)
  | [] => [[]]
  | c :: t =>
    match splitOnChar sep t with
    | [] => if c = sep then [[], []] else [[c]]
    | h :: r => if c = sep then [] :: h :: r else (c :: h) :: r

/-- Python `str.strip(c)` for a one-character set: removes the character
from BOTH ends of the string (used for `cik.strip("0")`, `edgar.py`
line 73). -/
def pyStripChar (c : Char) (s : List Char) : List Char :=
  ((s.dropWhile (· = c)).reverse.dropWhile (· = c)).reverse

/-- Modelled from the spec: the spec's record-parser derivation of the URL
path segment, "Company identifier is cleaned by stripping leading zeros"
(spec 4.5) — leading zeros only.  Stated here for comparison with the
source's `cik.strip("0")`. -/
def spec_lstrip_zeros (s : List Char) : List Char := s.dropWhile (· = '0')

/-- One raw results-table row as the external row extractor hands it to
`_parse_table_rows`: each field is the text or attribute of one labelled
sub-element, absent (`none`) when the sub-element or attribute is missing.
`filetypeText` stands for the `.filetype` element (and its
`.preview-file` link); `cikText` is the full `innerText` of the `.cik`
element; `adsh` and `fileName` are the link's `data-adsh` and
`data-file-name` attributes. -/
structure RawRow where
  filetypeText : Option (List Char)
  cikText : Option (List Char)
  adsh : Option (List Char)
  fileName : Option (List Char)
  filed : Option (List Char)
  enddate : Option (List Char)
  entityName : Option (List Char)
  bizLocation : Option (List Char)
  incorporated : Option (List Char)
  fileNumText : Option (List Char)
  filmNum : Option (List Char)
  fileNumHref : Option (List Char)
deriving DecidableEq

/-- One output row, the dictionary built at `edgar.py` lines 79-97. -/
structure FilingRecord where
  filing_type : List Char
  filed_at : Option (List Char)
  reporting_for : Option (List Char)
  entity_name : Option (List Char)
  company_cik : List Char
  place_of_business : Option (List Char)
  incorporated_location : Option (List Char)
  file_num : Option (List Char)
  film_num : Option (List Char)
  file_num_search_url : Option (List Char)
  filing_details_url : List Char
  filing_document_url : List Char
deriving DecidableEq

/-- Shallow embedding of the per-row body of
`SecEdgarScraper._parse_table_rows` (`edgar.py` lines 65-97).  `none` models
the uncaught exception that aborts parsing of the whole page: a missing
`.filetype` element (or its `.preview-file` link) raises before anything
else, then `cik.strip("0")` raises when the `.cik` text is missing or has no
second word, then `data_adsh.replace` raises when the `data-adsh` attribute
is absent.  An absent `data-file-name` does not raise: the f-string renders
Python `None` as the text `None`.  All other sub-elements are wrapped in
`try_or_none` and fall back to `none` individually. -/
def parse_table_row (r : RawRow) : Option FilingRecord :=
  match r.filetypeText with
  | none => none
  | some ft =>
    match r.cikText.bind (fun t => (splitOnChar ' ' t).get? 1) with
    | none => none
    | some cik =>
      let cik_cleaned := pyStripChar '0' cik
      match r.adsh with
      | none => none
      | some data_adsh =>
        let data_adsh_no_dash := data_adsh.filter (fun c => c ≠ '-')
        let data_file_name := match r.fileName with
          | some f => f
          | none => "None".toList
        some {
          filing_type := ft
          filed_at := r.filed
          reporting_for := r.enddate
          entity_name := r.entityName
          company_cik := cik
          place_of_business := r.bizLocation
          incorporated_location := r.incorporated
          file_num := r.fileNumText
          film_num := r.filmNum
          file_num_search_url := r.fileNumHref
          filing_details_url :=
            "https://www.sec.gov/Archives/edgar/data/".toList ++ cik_cleaned ++
              "/".toList ++ data_adsh_no_dash ++ "/".toList ++ data_adsh ++
              "-index.html".toList
          filing_document_url :=
            "https://www.sec.gov/Archives/edgar/data/".toList ++ cik_cleaned ++
              "/".toList ++ data_adsh_no_dash ++ "/".toList ++ data_file_name }

/-- `SecEdgarScraper._parse_table_rows` over a whole page: one raising row
aborts the whole page's parsing (the exception propagates out of the row
loop). -/
def parse_table_rows (rows : List RawRow) : Option (List FilingRecord) :=
  rows.mapM parse_table_row

/-- A concrete row whose company identifier ends in a zero. -/
def c7Row : RawRow :=
  { filetypeText := some "10-K".toList
    cikText := some "CIK 0000320190".toList
    adsh := some "0001104659-23-000123".toList
    fileName := some "a10-k.htm".toList
    filed := some "2023-02-03".toList
    enddate := none
    entityName := some "Example Corp".toList
    bizLocation := none
    incorporated := none
    fileNumText := none
    filmNum := none
    fileNumHref := none }

/-- The record `_parse_table_rows` produces for `c7Row`. -/
def c7Expected : FilingRecord :=
  { filing_type := "10-K".toList
    filed_at := some "2023-02-03".toList
    reporting_for := none
    entity_name := some "Example Corp".toList
    company_cik := "0000320190".toList
    place_of_business := none
    incorporated_location := none
    file_num := none
    film_num := none
    file_num_search_url := none
    filing_details_url :=
      "https://www.sec.gov/Archives/edgar/data/32019/000110465923000123/0001104659-23-000123-index.html".toList
    filing_document_url :=
      "https://www.sec.gov/Archives/edgar/data/32019/000110465923000123/a10-k.htm".toList }

/-- One line of the output CSV store: the header row or one record row
(`csv.DictWriter.writeheader` / `writerow`). -/
inductive Entry
  | header
  | data (r : FilingRecord)
deriving DecidableEq

/-- Shallow embedding of `SecEdgarScraper.write_results_to_csv`
(`edgar.py` lines 332-366), with the destination file's contents as a list
of rows: the file is opened in append mode, the header is written exactly
when `f.tell() == 0`, i.e. when the destination is empty at open time, then
every record of every page is appended in order. -/
def write_results_to_csv (data : List (List FilingRecord)) (file : List Entry) :
    List Entry :=
  (if file.isEmpty then [Entry.header] else file) ++ (data.flatten.map Entry.data)

/-- Outcome of one paginated page fetch inside
`_fetch_search_request_results` (lines 175-203): a parsed page of records,
a `PageCheckFailedError`, a `ResultsTableNotFoundError`, or any other
exception (each of the three failures is caught and the page skipped). -/
inductive PageOutcome
  | rows (rs : List FilingRecord)
  | pageCheckFailed
  | tableNotFound
  | otherError
deriving DecidableEq

/-- The rows a page outcome contributes (`none` when the page is skipped). -/
def pageRows : PageOutcome → Option (List FilingRecord)
  | .rows rs => some rs
  | _ => none

/-- `num_pages = ceil(num_results / 100)`, `_compute_number_of_pages`,
`edgar.py` line 51. -/
def compute_number_of_pages (count : ℕ) : ℕ := (count + 99) / 100

/-- The page loop of `_fetch_search_request_results` (lines 175-203):
`for i in range(1, num_pages + 1)`, yielding each successfully fetched and
parsed page and skipping (with a log) every page whose fetch, verification
or extraction fails. -/
def fetchPagesLoop (pages : ℕ → PageOutcome) : ℕ → ℕ → List (List FilingRecord)
  | _, 0 => []
  | i, k + 1 =>
    match pages i with
    | .rows rs => rs :: fetchPagesLoop pages (i + 1) k
    | _ => fetchPagesLoop pages (i + 1) k

/-- Shallow embedding of `SecEdgarScraper._fetch_search_request_results`
(lines 152-203) run to exhaustion: `first` is the combined outcome of the
initial page-1 fetch-and-verify plus result-count read, whose exceptions
propagate out of the generator (to the caller's query-level handler);
on success the page loop runs over `ceil(count / 100)` pages. -/
def fetch_search_request_results (first : Option ℕ) (pages : ℕ → PageOutcome) :
    Option (List (List FilingRecord)) :=
  first.map (fun count => fetchPagesLoop pages 1 (compute_number_of_pages count))

/-- The harvest loop of `custom_text_search` (`edgar.py` lines 317-330):
each finalized query is fetched and written; a query whose result iteration
raises is logged and skipped — but only after `write_results_to_csv` has
already opened the destination and written the header if the destination
was empty, since the generator's first fetch only runs once the writer
iterates it. -/
def harvestQueries (runs : ℕ → Option ℕ × (ℕ → PageOutcome)) :
    List (ℕ × ℕ) → ℕ → List Entry → List Entry
  | [], _, csv => csv
  | _ :: rest, k, csv =>
    match fetch_search_request_results (runs k).1 (runs k).2 with
    | none => harvestQueries runs rest (k + 1) (if csv.isEmpty then [Entry.header] else csv)
    | some pageLists => harvestQueries runs rest (k + 1) (write_results_to_csv pageLists csv)

/-- Shallow embedding of `SecEdgarScraper.custom_text_search`
(lines 281-330) on one scraper instance: `search_requests` is the
instance's `self.search_requests` BEFORE the call (the constructor sets it
to `[]` once; `custom_text_search` never clears it).  Partitioning appends
onto it; the harvest loop then iterates the whole accumulated list.  `none`
models an exception propagating out of the partitioning phase, which is not
inside any `try`. -/
def custom_text_search (O : ℕ → FetchOutcome)
    (runs : ℕ → Option ℕ × (ℕ → PageOutcome)) (fuel s e : ℕ)
    (search_requests : List (ℕ × ℕ)) (csv : List Entry) :
    Option (List (ℕ × ℕ) × List Entry) :=
  match generate_search_requests O fuel [(s, e)] ⟨0, search_requests, false⟩ with
  | .ok st => some (st.finalized, harvestQueries runs st.finalized 0 csv)
  | _ => none

/-- A simple record family, distinguishable by `n`. -/
def mkRec (n : ℕ) : FilingRecord :=
  { filing_type := "T".toList
    filed_at := none
    reporting_for := none
    entity_name := none
    company_cik := "c".toList
    place_of_business := none
    incorporated_location := none
    file_num := none
    film_num := some (List.replicate n 'x')
    file_num_search_url := none
    filing_details_url := []
    filing_document_url := [] }

/-- Page oracle for the spec's five-page example: page 3 times out, the
other pages return one record each. -/
def pagesC5 : ℕ → PageOutcome :=
  fun j => if j = 3 then .pageCheckFailed else .rows [mkRec j]

/-- Query-run oracle for the spec's example: query 0 has 450 results
(5 pages) with page 3 failing; query 1 has 100 results (1 page). -/
def runsC5 : ℕ → Option ℕ × (ℕ → PageOutcome) :=
  fun k => if k = 0 then (some 450, pagesC5) else (some 100, fun _ => .rows [mkRec 10])

/-- A source that always reports 7 results (below the cap). -/
def oracleC10 : ℕ → FetchOutcome := fun _ => .count 7

/-- Query runs whose single page returns one record tagged with the query's
position in the scraper's accumulated `search_requests` list. -/
def runsC10 : ℕ → Option ℕ × (ℕ → PageOutcome) :=
  fun k => (some 1, fun _ => .rows [mkRec k])

/-- Calendar date as Python's `datetime.date` triple. -/
structure SDate where
  year : ℕ
  month : ℕ
  day : ℕ
deriving DecidableEq

/-- Python date comparison (`start_date > end_date` at `edgar.py` line 125):
lexicographic on (year, month, day). -/
def sdlt (a b : SDate) : Prop :=
  a.year < b.year ∨
    (a.year = b.year ∧ (a.month < b.month ∨ (a.month = b.month ∧ a.day < b.day)))

instance (a b : SDate) : Decidable (sdlt a b) := by
  unfold sdlt
  exact inferInstance

/-- A Python `datetime.date` value rendered by `strftime("%Y-%m-%d")`:
four-digit year, two-digit month and day (1000 ≤ year ≤ 9999, the range on
which `%Y` is four characters on every platform). -/
def validDate (d : SDate) : Prop :=
  1000 ≤ d.year ∧ d.year ≤ 9999 ∧ 1 ≤ d.month ∧ d.month ≤ 12 ∧ 1 ≤ d.day ∧ d.day ≤ 31

/-- The character of a decimal digit. -/
def digitChar (n : ℕ) : Char := Char.ofNat (48 + n)

/-- The value of a decimal digit character. -/
def digitVal (c : Char) : ℕ := c.toNat - 48

/-- Uppercase hexadecimal digit, as `urllib.parse.quote` emits. -/
def hexChar (n : ℕ) : Char := if n < 10 then Char.ofNat (48 + n) else Char.ofNat (55 + n)

/-- Decimal digit test on characters. -/
def isDigitCh (c : Char) : Bool := decide (48 ≤ c.toNat ∧ c.toNat ≤ 57)

/-- Two-digit zero-padded rendering (`%m`, `%d`). -/
def pad2 (n : ℕ) : List Char := [digitChar (n / 10 % 10), digitChar (n % 10)]

/-- Four-digit zero-padded rendering (`%Y` for years 1000-9999). -/
def pad4 (n : ℕ) : List Char :=
  [digitChar (n / 1000 % 10), digitChar (n / 100 % 10), digitChar (n / 10 % 10),
    digitChar (n % 10)]

/-- `date.strftime("%Y-%m-%d")` (`edgar.py` lines 136-137). -/
def strftime (d : SDate) : List Char :=
  pad4 d.year ++ '-' :: pad2 d.month ++ '-' :: pad2 d.day

/-- Decimal rendering with explicit structural fuel (any fuel above the
value itself is enough; see `natToDec_eq`). -/
def natToDecFuel : ℕ → ℕ → List Char
  | 0, _ => []
  | fuel + 1, n =>
    if n < 10 then [digitChar n]
    else natToDecFuel fuel (n / 10) ++ [digitChar (n % 10)]

/-- Python `str(n)` for a non-negative integer (the page number). -/
def natToDec (n : ℕ) : List Char := natToDecFuel (n + 1) n

/-- ASCII letters and digits (the alphanumeric part of `urllib`'s
always-safe set; non-ASCII characters are never safe). -/
def isAlphaNumAscii (c : Char) : Bool :=
  decide ((65 ≤ c.toNat ∧ c.toNat ≤ 90) ∨ (97 ≤ c.toNat ∧ c.toNat ≤ 122) ∨
    (48 ≤ c.toNat ∧ c.toNat ≤ 57))

/-- Characters `urllib.parse.quote` leaves unescaped with its default
`safe="/"`: always-safe `_.-~`, letters, digits, and `/`. -/
def isQuoteSafe (c : Char) : Bool :=
  isAlphaNumAscii c || c == '_' || c == '.' || c == '-' || c == '~' || c == '/'

/-- Characters `urllib.parse.quote_plus` (via `urlencode`, `safe=""`)
leaves unescaped: the always-safe set only. -/
def isQuotePlusSafe (c : Char) : Bool :=
  isAlphaNumAscii c || c == '_' || c == '.' || c == '-' || c == '~'

/-- Percent-escape of one byte (one ASCII character), uppercase hex. -/
def pctEncodeChar (c : Char) : List Char :=
  ['%', hexChar (c.toNat / 16), hexChar (c.toNat % 16)]

/-- Per-character encoding concatenated over a string. -/
def encAll (f : Char → List Char) : List Char → List Char
  | [] => []
  | c :: t => f c ++ encAll f t

/-- One character of `urllib.parse.quote(s)` (byte-level; faithful for
ASCII input, where one character is one byte). -/
def quoteChar (c : Char) : List Char :=
  if isQuoteSafe c then [c] else pctEncodeChar c

/-- `urllib.parse.quote` with its default `safe="/"` (`edgar.py`
line 134). -/
def quote (s : List Char) : List Char := encAll quoteChar s

/-- One character of `urllib.parse.quote_plus`: space becomes `+`. -/
def quotePlusChar (c : Char) : List Char :=
  if c == ' ' then ['+'] else if isQuotePlusSafe c then [c] else pctEncodeChar c

/-- `urllib.parse.quote_plus`, the `quote_via` that
`urllib.parse.urlencode` applies to every key and value. -/
def quote_plus (s : List Char) : List Char := encAll quotePlusChar s

/-- `urllib.parse.urlencode` on an ordered list of key-value pairs
(`edgar.py` line 148): `key=value` segments joined by `&`, keys and values
passed through `quote_plus`. -/
def urlencode : List (List Char × List Char) → List Char
  | [] => []
  | (k, v) :: rest =>
    (quote_plus k ++ '=' :: quote_plus v) ++
      (match rest with
       | [] => []
       | _ => '&' :: urlencode rest)

/-- `FILING_CATEGORIES_MAPPING`, `edgar.py` lines 21-33. -/
def FILING_CATEGORIES_MAPPING : List (List Char × List Char) :=
  [("all_except_section_16".toList, "form-cat0".toList),
   ("all_annual_quarterly_and_current_reports".toList, "form-cat1".toList),
   ("all_section_16".toList, "form-cat2".toList),
   ("beneficial_ownership_reports".toList, "form-cat3".toList),
   ("exempt_offerings".toList, "form-cat4".toList),
   ("registration_statements".toList, "form-cat5".toList),
   ("filing_review_correspondence".toList, "form-cat6".toList),
   ("sec_orders_and_notices".toList, "form-cat7".toList),
   ("proxy_materials".toList, "form-cat8".toList),
   ("tender_offers_and_going_private_tx".toList, "form-cat9".toList),
   ("trust_indentures".toList, "form-cat10".toList)]

/-- Python dict lookup `FILING_CATEGORIES_MAPPING[filing_category]`:
`none` models the `KeyError` on an unknown key. -/
def lookupCategory (k : List Char) : Option (List Char) :=
  (FILING_CATEGORIES_MAPPING.find? (fun p => p.1 == k)).map (fun p => p.2)

/-- Exceptions `_generate_request_args` can raise: the `ValueError` of the
date-order guard (line 126) and the `KeyError` of the category lookup
(line 145). -/
inductive EncError
  | invalidRange
  | keyError
deriving DecidableEq

instance instExceptDecEq {e a : Type} [DecidableEq e] [DecidableEq a] :
    DecidableEq (Except e a) := fun x y =>
  match x, y with
  | .ok u, .ok v =>
    if h : u = v then isTrue (by rw [h]) else isFalse (by intro hc; cases hc; exact h rfl)
  | .error u, .error v =>
    if h : u = v then isTrue (by rw [h]) else isFalse (by intro hc; cases hc; exact h rfl)
  | .ok _, .error _ => isFalse (by intro hc; cases hc)
  | .error _, .ok _ => isFalse (by intro hc; cases hc)

/-- `" ".join(search_keywords)` wrapped in double quotes when
`exact_search` (`edgar.py` lines 129-130). -/
def joinedKeywords (kw : List (List Char)) (exact_search : Bool) : List Char :=
  let j := List.intercalate [' '] kw
  if exact_search then '"' :: (j ++ ['"']) else j

/-- The optional `entityName` pair: Python truthiness (`if
entity_identifier:`, line 142) omits both `None` and the empty string. -/
def entityPairs (ent : Option (List Char)) : List (List Char × List Char) :=
  match ent with
  | some l => if l.isEmpty then [] else [("entityName".toList, l)]
  | none => []

/-- Shallow embedding of `SecEdgarScraper._generate_request_args`
(`edgar.py` lines 100-150): validates the date order, joins (and optionally
exact-quotes) the keywords, `quote`s them, builds the ordered request dict
`q, dateRange, startdt, enddt, page` plus the truthy optional fields, and
`urlencode`s it (which `quote_plus`es every key and value — the `q` value is
therefore encoded twice, exactly as the source does).  Faithful for ASCII
field contents, where Python's UTF-8 byte-level escaping coincides with
character-level escaping. -/
def generate_request_args (search_keywords : List (List Char))
    (entity_identifier : Option (List Char)) (filing_category : Option (List Char))
    (exact_search : Bool) (start_date end_date : SDate) (page_number : ℕ) :
    Except EncError (List Char) :=
  if sdlt end_date start_date then .error .invalidRange
  else
    let q := quote (joinedKeywords search_keywords exact_search)
    let basePairs : List (List Char × List Char) :=
      [("q".toList, q),
       ("dateRange".toList, "custom".toList),
       ("startdt".toList, strftime start_date),
       ("enddt".toList, strftime end_date),
       ("page".toList, natToDec page_number)]
    match filing_category with
    | some cat =>
      if cat.isEmpty then .ok (urlencode (basePairs ++ entityPairs entity_identifier))
      else
        match lookupCategory cat with
        | some code =>
          .ok (urlencode (basePairs ++ entityPairs entity_identifier ++
            [("category".toList, code)]))
        | none => .error .keyError
    | none => .ok (urlencode (basePairs ++ entityPairs entity_identifier))

/-- The request string the partitioner appends for a finalized interval:
`_generate_search_requests` builds `request_args` with `page_number=1`
(`edgar.py` lines 231-239) and appends exactly that string (line 257).
`toDate` renders ordinal days back to calendar dates. -/
def finalized_request_args (search_keywords : List (List Char))
    (entity_identifier filing_category : Option (List Char)) (exact_search : Bool)
    (toDate : ℕ → SDate) (p : ℕ × ℕ) : Except EncError (List Char) :=
  generate_request_args search_keywords entity_identifier filing_category exact_search
    (toDate p.1) (toDate p.2) 1

/-- `pat` occurs contiguously inside `l`. -/
def ContainsSeq (pat l : List Char) : Prop := ∃ u v, l = u ++ pat ++ v

/-- Date rendering for the concrete January 2020 runs below. -/
def toDateC3 : ℕ → SDate := fun n => ⟨2020, 1, n + 1⟩

/-- Every character is ASCII (below 128), where the byte-level model of
`urllib` escaping is exact. -/
def asciiStr (s : List Char) : Prop := ∀ c ∈ s, c.toNat < 128

/-- The value of an uppercase hexadecimal digit character. -/
def hexVal (c : Char) : ℕ := if c.toNat ≤ 57 then c.toNat - 48 else c.toNat - 55

/-- Partial inverse of `quotePlusChar` on an encoded stream. -/
def qpDecodeHead : List Char → Option Char
  | [] => none
  | c :: rest =>
    if c = '+' then some ' '
    else if c = '%' then
      match rest with
      | h₁ :: h₂ :: _ => some (Char.ofNat (16 * hexVal h₁ + hexVal h₂))
      | _ => none
    else some c

/-- The optional trailing pairs of the request dict: `entityName` (already
known non-empty) and `category` (already resolved to its code). -/
def optTail (ent code : Option (List Char)) : List (List Char × List Char) :=
  (match ent with
   | some l => [("entityName".toList, l)]
   | none => []) ++
  (match code with
   | some c => [("category".toList, c)]
   | none => [])

/-- The rendered optional tail of the encoded request string, with values
already `quote_plus`-encoded. -/
def tailStr (e c : Option (List Char)) : List Char :=
  (match e with
   | some l => "&entityName=".toList ++ l
   | none => []) ++
  (match c with
   | some l => "&category=".toList ++ l
   | none => [])

/-- Python truthiness discipline for the optional entity identifier: absent,
or a non-empty ASCII string (an empty string behaves as absent, the
optional-field omission rule the claim sets aside). -/
def entOk : Option (List Char) → Prop
  | none => True
  | some l => l ≠ [] ∧ asciiStr l

/-- Python truthiness discipline for the optional category key. -/
def catOk : Option (List Char) → Prop
  | none => True
  | some l => l ≠ []

instance instDecValidDate (d : SDate) : Decidable (validDate d) := by
  unfold validDate
  exact inferInstance

instance instDecAsciiStr (s : List Char) : Decidable (asciiStr s) := by
  unfold asciiStr
  exact List.decidableBAll _ s

instance instDecEntOk : (o : Option (List Char)) → Decidable (entOk o)
  | none => isTrue trivial
  | some l => inferInstanceAs (Decidable (l ≠ [] ∧ asciiStr l))

instance instDecCatOk : (o : Option (List Char)) → Decidable (catOk o)
  | none => isTrue trivial
  | some l => inferInstanceAs (Decidable (l ≠ []))

/-! ## Lemmas and claim theorems -/

lemma covers_append {a b : List (ℕ × ℕ)} {x : ℕ} :
    covers (a ++ b) x ↔ covers a x ∨ covers b x := by
  simp [covers, List.mem_append, or_and_right, exists_or]

lemma covers_cons {p : ℕ × ℕ} {l : List (ℕ × ℕ)} {x : ℕ} :
    covers (p :: l) x ↔ (p.1 ≤ x ∧ x ≤ p.2) ∨ covers l x := by
  simp [covers, List.mem_cons, or_and_right, exists_or]

lemma genReqs_nil (O : ℕ → FetchOutcome) (fuel : ℕ) (st : PartState) :
    generate_search_requests O fuel [] st = .ok st := by
  cases fuel <;> rfl

lemma genReqs_cons (O : ℕ → FetchOutcome) (fuel s e : ℕ) (rest : List (ℕ × ℕ))
    (st : PartState) :
    generate_search_requests O (fuel + 1) ((s, e) :: rest) st =
      if e < s then .exn .invalidRange st
      else
        match O st.idx with
        | .pageCheckFailed => .exn .pageCheckFailed (bump st)
        | .otherError => .exn .otherError (bump st)
        | .count n =>
          if n < 10000 then
            generate_search_requests O fuel rest (finalizeStep st s e)
          else
            generate_search_requests O fuel (mkSubIntervals s e ++ rest) (splitStep st s e)
        | .parseError =>
          generate_search_requests O fuel (mkSubIntervals s e ++ rest) (splitStep st s e) :=
  rfl

lemma mkSub_zero {s e : ℕ} (h : e - s = 0) : mkSubIntervals s e = [] := by
  have hmin : numBatches s e = 0 := by
    unfold numBatches DEFAULT_BATCHES_NUMBER; omega
  unfold mkSubIntervals split_date_range_in_n
  rw [hmin]
  simp [List.range_zero, subIntervals]

lemma mkSub_one {s e : ℕ} (h : e - s = 1) : mkSubIntervals s e = [(s, e)] := by
  have hmin : numBatches s e = 1 := by
    unfold numBatches DEFAULT_BATCHES_NUMBER; omega
  unfold mkSubIntervals split_date_range_in_n
  rw [hmin]
  have hr : List.range 1 = [0] := rfl
  rw [hr]
  simp [subIntervals, subIntervalsTail]

lemma mkSub_two {s e : ℕ} (h : 2 ≤ e - s) :
    mkSubIntervals s e = [(s, s + (e - s) / 2), (s + (e - s) / 2 + 1, e)] := by
  have hmin : numBatches s e = 2 := by
    unfold numBatches DEFAULT_BATCHES_NUMBER; omega
  unfold mkSubIntervals split_date_range_in_n
  rw [hmin]
  have hr : List.range 2 = [0, 1] := rfl
  rw [hr]
  simp [subIntervals, subIntervalsTail]

lemma mkSubIntervals_props {s e : ℕ} (hse : s ≤ e) (hnb : numBatches s e ≠ 0) :
    (∀ p ∈ mkSubIntervals s e, p.1 ≤ p.2 ∧ s ≤ p.1 ∧ p.2 ≤ e) ∧
    List.Pairwise (fun p q : ℕ × ℕ => p.2 < q.1) (mkSubIntervals s e) ∧
    (∀ x : ℕ, covers (mkSubIntervals s e) x ↔ s ≤ x ∧ x ≤ e) := by
  have hd : 1 ≤ e - s := by
    unfold numBatches DEFAULT_BATCHES_NUMBER at hnb; omega
  rcases Nat.lt_or_ge (e - s) 2 with h1 | h2
  · have hes : e - s = 1 := by omega
    rw [mkSub_one hes]
    refine ⟨?_, ?_, ?_⟩
    · intro p hp
      rw [List.mem_singleton] at hp
      subst hp
      simp only
      omega
    · simp
    · intro x
      simp only [covers, List.mem_singleton]
      constructor
      · rintro ⟨p, rfl, hx⟩; exact hx
      · intro hx; exact ⟨(s, e), rfl, hx⟩
  · rw [mkSub_two h2]
    refine ⟨?_, ?_, ?_⟩
    · intro p hp
      rw [List.mem_cons, List.mem_singleton] at hp
      rcases hp with rfl | rfl <;> simp only <;> omega
    · refine List.pairwise_cons.mpr ⟨?_, by simp⟩
      intro q hq
      rw [List.mem_singleton] at hq
      subst hq
      simp only
      omega
    · intro x
      simp only [covers, List.mem_cons, List.not_mem_nil, or_false]
      constructor
      · rintro ⟨p, rfl | rfl, hx⟩ <;> simp only at hx <;> omega
      · intro hx
        rcases le_or_lt x (s + (e - s) / 2) with hle | hgt
        · exact ⟨(s, s + (e - s) / 2), Or.inl rfl, hx.1, hle⟩
        · exact ⟨(s + (e - s) / 2 + 1, e), Or.inr rfl, hgt, hx.2⟩

lemma pairwise_sep_replace {L R sub : List (ℕ × ℕ)} {s e : ℕ}
    (h : List.Pairwise (fun p q : ℕ × ℕ => p.2 < q.1) (L ++ (s, e) :: R))
    (hsub : List.Pairwise (fun p q : ℕ × ℕ => p.2 < q.1) sub)
    (hb : ∀ p ∈ sub, s ≤ p.1 ∧ p.2 ≤ e) :
    List.Pairwise (fun p q : ℕ × ℕ => p.2 < q.1) (L ++ (sub ++ R)) := by
  rw [List.pairwise_append] at h ⊢
  obtain ⟨hL, hCR, hcross⟩ := h
  rw [List.pairwise_cons] at hCR
  obtain ⟨hseR, hR⟩ := hCR
  refine ⟨hL, ?_, ?_⟩
  · rw [List.pairwise_append]
    refine ⟨hsub, hR, ?_⟩
    intro a ha b hb'
    exact lt_of_le_of_lt (hb a ha).2 (hseR b hb')
  · intro a ha b hbmem
    rcases List.mem_append.mp hbmem with hbs | hbR
    · exact lt_of_lt_of_le (hcross a ha (s, e) (List.mem_cons_self _ _)) (hb b hbs).1
    · exact hcross a ha b (List.mem_cons_of_mem _ hbR)

/-- The degenerate-drop instrumentation flag is never reset. -/
lemma droppedMono (O : ℕ → FetchOutcome) :
    ∀ (fuel : ℕ) (tasks : List (ℕ × ℕ)) (st st' : PartState),
      generate_search_requests O fuel tasks st = .ok st' →
      st.droppedDegenerate = true → st'.droppedDegenerate = true := by
  intro fuel
  induction fuel with
  | zero =>
    intro tasks st st' hrun hd
    cases tasks with
    | nil =>
      rw [genReqs_nil] at hrun
      cases hrun
      exact hd
    | cons head rest => exact absurd hrun (by simp [generate_search_requests])
  | succ fuel ih =>
    intro tasks st st' hrun hd
    cases tasks with
    | nil =>
      rw [genReqs_nil] at hrun
      cases hrun
      exact hd
    | cons head rest =>
      obtain ⟨s, e⟩ := head
      rw [genReqs_cons] at hrun
      split at hrun
      · cases hrun
      · split at hrun
        · cases hrun
        · cases hrun
        · split at hrun
          · exact ih rest _ st' hrun (by simp [finalizeStep, hd])
          · exact ih _ _ st' hrun (by simp [splitStep, hd])
        · exact ih _ _ st' hrun (by simp [splitStep, hd])

/-- Main partitioner invariant: a completed run with no degenerate drop turns
a valid, separated worklist into a valid, separated finalized list covering
exactly the same dates. -/
lemma genReqs_invariant (O : ℕ → FetchOutcome) :
    ∀ (fuel : ℕ) (tasks : List (ℕ × ℕ)) (st st' : PartState),
      generate_search_requests O fuel tasks st = .ok st' →
      st'.droppedDegenerate = false →
      (∀ p ∈ tasks, p.1 ≤ p.2) →
      List.Pairwise (fun p q : ℕ × ℕ => p.2 < q.1) (st.finalized ++ tasks) →
      (∀ p ∈ st.finalized, p.1 ≤ p.2) →
      (∀ p ∈ st'.finalized, p.1 ≤ p.2) ∧
      List.Pairwise (fun p q : ℕ × ℕ => p.2 < q.1) st'.finalized ∧
      (∀ x : ℕ, covers st'.finalized x ↔ covers (st.finalized ++ tasks) x) := by
  intro fuel
  induction fuel with
  | zero =>
    intro tasks st st' hrun hdrop htasks hpair hfin
    cases tasks with
    | nil =>
      rw [genReqs_nil] at hrun
      cases hrun
      exact ⟨hfin, by simpa using hpair, fun x => by rw [List.append_nil]⟩
    | cons head rest => exact absurd hrun (by simp [generate_search_requests])
  | succ fuel ih =>
    intro tasks st st' hrun hdrop htasks hpair hfin
    cases tasks with
    | nil =>
      rw [genReqs_nil] at hrun
      cases hrun
      exact ⟨hfin, by simpa using hpair, fun x => by rw [List.append_nil]⟩
    | cons head rest =>
      obtain ⟨s, e⟩ := head
      have hse : s ≤ e := htasks (s, e) (List.mem_cons_self _ _)
      have htasks' : ∀ p ∈ rest, p.1 ≤ p.2 :=
        fun p hp => htasks p (List.mem_cons_of_mem _ hp)
      have splitCase :
          generate_search_requests O fuel (mkSubIntervals s e ++ rest) (splitStep st s e) =
            RunResult.ok st' →
          (∀ p ∈ st'.finalized, p.1 ≤ p.2) ∧
          List.Pairwise (fun p q : ℕ × ℕ => p.2 < q.1) st'.finalized ∧
          (∀ x : ℕ, covers st'.finalized x ↔ covers (st.finalized ++ (s, e) :: rest) x) := by
        intro hrun2
        by_cases hnb0 : numBatches s e = 0
        · have : st'.droppedDegenerate = true :=
            droppedMono O fuel _ _ st' hrun2 (by simp [splitStep, hnb0])
          rw [hdrop] at this
          cases this
        · obtain ⟨hbounds, hpw, hcov⟩ := mkSubIntervals_props hse hnb0
          have ihres := ih (mkSubIntervals s e ++ rest) (splitStep st s e) st' hrun2 hdrop
            (by
              intro p hp
              rcases List.mem_append.mp hp with hmem | hmem
              · exact (hbounds p hmem).1
              · exact htasks' p hmem)
            (by
              show List.Pairwise _ (st.finalized ++ (mkSubIntervals s e ++ rest))
              exact pairwise_sep_replace hpair hpw
                (fun p hp => ⟨(hbounds p hp).2.1, (hbounds p hp).2.2⟩))
            hfin
          refine ⟨ihres.1, ihres.2.1, fun x => ?_⟩
          rw [ihres.2.2 x]
          have h1 : covers (splitStep st s e).finalized x ↔ covers st.finalized x := Iff.rfl
          simp only [covers_append, covers_cons, hcov x, h1]
      rw [genReqs_cons] at hrun
      split at hrun
      · cases hrun
      · split at hrun
        · cases hrun
        · cases hrun
        · split at hrun
          · -- below-cap: the interval is finalized
            have ihres := ih rest (finalizeStep st s e) st' hrun hdrop htasks'
              (by
                show List.Pairwise _ ((st.finalized ++ [(s, e)]) ++ rest)
                rw [List.append_assoc, List.singleton_append]
                exact hpair)
              (by
                intro p hp
                rcases List.mem_append.mp hp with hmem | hmem
                · exact hfin p hmem
                · rw [List.mem_singleton] at hmem; subst hmem; exact hse)
            refine ⟨ihres.1, ihres.2.1, fun x => ?_⟩
            rw [ihres.2.2 x]
            show covers ((st.finalized ++ [(s, e)]) ++ rest) x ↔ _
            rw [List.append_assoc, List.singleton_append]
          · exact splitCase hrun
        · exact splitCase hrun

/-- Claim C1: for every requested interval `[s, e]` with `s ≤ e` and every
sequence of fetch outcomes under which the partitioner runs to completion,
the date intervals of the finalized queries are pairwise non-overlapping and
their union is exactly `[s, e]`, absent the degenerate single-day-over-cap
case (no saturated zero-length interval was silently dropped). -/
theorem C1_partitioner_partition (O : ℕ → FetchOutcome) (fuel s e : ℕ)
    (st' : PartState) (hse : s ≤ e)
    (hrun : generate_search_requests O fuel [(s, e)] initPartState = .ok st')
    (hdrop : st'.droppedDegenerate = false) :
    List.Pairwise (fun p q : ℕ × ℕ => p.2 < q.1 ∨ q.2 < p.1) st'.finalized ∧
    ∀ x : ℕ, covers st'.finalized x ↔ s ≤ x ∧ x ≤ e := by
  have inv := genReqs_invariant O fuel [(s, e)] initPartState st' hrun hdrop
    (by intro p hp; rw [List.mem_singleton] at hp; subst hp; exact hse)
    (by
      show List.Pairwise (fun p q : ℕ × ℕ => p.2 < q.1) ([] ++ [(s, e)])
      simp)
    (by intro p hp; simp [initPartState] at hp)
  refine ⟨inv.2.1.imp (fun h => Or.inl h), fun x => ?_⟩
  rw [inv.2.2 x]
  show covers ([] ++ [(s, e)]) x ↔ _
  rw [List.nil_append]
  simp only [covers, List.mem_singleton]
  constructor
  · rintro ⟨p, rfl, hx⟩; exact hx
  · intro hx; exact ⟨(s, e), rfl, hx⟩

theorem C1_partitioner_partition_witness :
    covers [(3, 7)] 5 ↔ 3 ≤ 5 ∧ 5 ≤ 7 :=
  (C1_partitioner_partition oracleBelow 2 3 7 ⟨1, [(3, 7)], false⟩ (by decide)
    (by decide) rfl).2 5

/-- Claim C2 counterexample: splitting the saturated interval `[0, 1]`
(`end - start` is one day, so `num_batches = min(1, 2) = 1`) yields the very
same interval as its single sub-interval, whose `end - start` is not strictly
smaller than the parent's.  The claimed strict decrease of every split fails
here, and with it the claimed termination for every saturated count
sequence. -/
theorem C2_split_not_smaller_counterexample :
    mkSubIntervals 0 1 = [(0, 1)] ∧
    (0, 1) ∈ mkSubIntervals 0 1 ∧ ¬((0, 1).2 - (0, 1).1 < 1 - 0) := by
  decide

/-- Claim C2 amended: a split of an interval spanning at least two days
(`2 ≤ e - s`) does produce valid sub-intervals whose day spans strictly
decrease; but an interval with `e - s = 1` splits into itself, so on it the
partitioner runs out of any amount of fuel when the source keeps reporting
saturated counts (the Python recursion does not terminate). -/
theorem C2_split_decrease_amended :
    (∀ s e : ℕ, 2 ≤ e - s →
      ∀ p ∈ mkSubIntervals s e, p.1 ≤ p.2 ∧ p.2 - p.1 < e - s)
    ∧ (∀ (fuel : ℕ) (st : PartState),
        generate_search_requests saturatedOracle fuel [(0, 1)] st = .outOfFuel) := by
  constructor
  · intro s e h2 p hp
    rw [mkSub_two h2] at hp
    rw [List.mem_cons, List.mem_singleton] at hp
    rcases hp with rfl | rfl <;> simp only <;> omega
  · intro fuel
    induction fuel with
    | zero => intro st; rfl
    | succ fuel ih =>
      intro st
      rw [genReqs_cons]
      have hsub : mkSubIntervals 0 1 ++ ([] : List (ℕ × ℕ)) = [(0, 1)] := by decide
      simp only [saturatedOracle, hsub]
      exact ih (splitStep st 0 1)

theorem C2_split_decrease_amended_witness :
    ((0 : ℕ), (1 : ℕ)).1 ≤ (0, 1).2 ∧ ((0 : ℕ), (1 : ℕ)).2 - (0, 1).1 < 2 - 0 :=
  C2_split_decrease_amended.1 0 2 (by decide) (0, 1) (by decide)

/-- Claim C4: a count-parse failure on a non-empty results surface is treated
as exactly the cap value 10000 and does not fail the harvest: (a) the whole
partitioner behaves identically when every `parseError` outcome is replaced
by `count 10000`; (b) one step on an interval whose fetch ends in
`parseError` is exactly the split step (10000 is not below the cap), not an
aborting exception. -/
theorem C4_parse_error_cap :
    (∀ (O : ℕ → FetchOutcome) (fuel : ℕ) (tasks : List (ℕ × ℕ)) (st : PartState),
      generate_search_requests O fuel tasks st =
        generate_search_requests (fun i => normalizeOutcome (O i)) fuel tasks st)
    ∧ (∀ (O : ℕ → FetchOutcome) (fuel s e : ℕ) (rest : List (ℕ × ℕ)) (st : PartState),
        O st.idx = .parseError → s ≤ e →
        generate_search_requests O (fuel + 1) ((s, e) :: rest) st =
          generate_search_requests O fuel (mkSubIntervals s e ++ rest) (splitStep st s e)) := by
  constructor
  · intro O fuel
    induction fuel with
    | zero =>
      intro tasks st
      cases tasks with
      | nil => rw [genReqs_nil, genReqs_nil]
      | cons head rest => rfl
    | succ fuel ih =>
      intro tasks st
      cases tasks with
      | nil => rw [genReqs_nil, genReqs_nil]
      | cons head rest =>
        obtain ⟨s, e⟩ := head
        rw [genReqs_cons, genReqs_cons]
        by_cases hes : e < s
        · rw [if_pos hes, if_pos hes]
        · rw [if_neg hes, if_neg hes]
          cases hO : O st.idx <;> simp only [hO, normalizeOutcome]
          · split <;> exact ih _ _
          · exact ih _ _
      
  · intro O fuel s e rest st hO hse
    rw [genReqs_cons, if_neg (not_lt.mpr hse), hO]

theorem C4_parse_error_cap_witness :
    generate_search_requests oracleParseErr 1 [(0, 3)] initPartState =
      generate_search_requests oracleParseErr 0
        (mkSubIntervals 0 3 ++ []) (splitStep initPartState 0 3) :=
  C4_parse_error_cap.2 oracleParseErr 0 0 3 [] initPartState rfl (by decide)

/-- Claim C6 counterexample: partitioning `[0, 2]` splits it into the
sub-intervals `(0, 1)` and `(2, 2)`; the unexpected (non-timeout) failure on
the first sub-interval is NOT caught at the partitioner level — the whole
partitioning aborts with the exception, the sibling sub-interval `(2, 2)` is
never fetched (the run stops after two fetches with nothing finalized),
instead of being skipped with a warning and partitioning continuing. -/
theorem C6_unexpected_error_counterexample :
    generate_search_requests oracleC6 10 [(0, 2)] initPartState =
      .exn .otherError ⟨2, [], false⟩ := by
  decide

/-- Claim C6 amended: inside the partitioner only the `IndexError` loop
sentinel and the count-parse `ValueError` are caught; an unexpected
non-timeout exception while fetching any sub-interval propagates and aborts
the entire partitioning at once, discarding all remaining sibling
sub-intervals. -/
theorem C6_unexpected_error_aborts (O : ℕ → FetchOutcome) (fuel s e : ℕ)
    (rest : List (ℕ × ℕ)) (st : PartState)
    (hse : s ≤ e) (hO : O st.idx = .otherError) :
    generate_search_requests O (fuel + 1) ((s, e) :: rest) st =
      .exn .otherError (bump st) := by
  rw [genReqs_cons, if_neg (not_lt.mpr hse), hO]

theorem C6_unexpected_error_aborts_witness :
    generate_search_requests oracleAllOther 1 [(0, 1), (5, 6)] initPartState =
      .exn .otherError (bump initPartState) :=
  C6_unexpected_error_aborts oracleAllOther 0 0 1 [(5, 6)] initPartState (by decide) rfl

/-- Claim C7: the code evaluated at a company identifier ending in a zero.
The raw identifier is preserved in `company_cik` as claimed, but the URL
path segment is built with `cik.strip("0")`, which strips zeros from BOTH
ends: for `0000320190` the constructed URLs use the segment `32019`,
whereas stripping exactly the leading zeros (the spec's stated derivation)
gives `320190`. -/
theorem C7_cik_strip_eval :
    parse_table_row c7Row = some c7Expected ∧
    c7Expected.company_cik = "0000320190".toList ∧
    c7Expected.filing_details_url =
      "https://www.sec.gov/Archives/edgar/data/32019/000110465923000123/0001104659-23-000123-index.html".toList ∧
    pyStripChar '0' "0000320190".toList = "32019".toList ∧
    spec_lstrip_zeros "0000320190".toList = "320190".toList ∧
    pyStripChar '0' "0000320190".toList ≠ spec_lstrip_zeros "0000320190".toList := by
  decide

/-- Claim C9: the sink writer writes the header exactly when the
destination is empty at open time: a fresh destination receives one header
line followed by exactly one data line per record (and no data line is a
header line); a non-empty destination receives the data lines only, with no
additional header. -/
theorem C9_header_exactly_once (data : List (List FilingRecord))
    (file : List Entry) (hne : file ≠ []) :
    write_results_to_csv data [] = Entry.header :: (data.flatten.map Entry.data) ∧
    (data.flatten.map Entry.data).length = data.flatten.length ∧
    (∀ x ∈ data.flatten.map Entry.data, x ≠ Entry.header) ∧
    write_results_to_csv data file = file ++ data.flatten.map Entry.data := by
  refine ⟨rfl, data.flatten.length_map _, ?_, ?_⟩
  · intro x hx
    obtain ⟨r, _, rfl⟩ := List.mem_map.mp hx
    intro h
    cases h
  · cases file with
    | nil => exact absurd rfl hne
    | cons a l => rfl

theorem C9_header_exactly_once_witness :
    write_results_to_csv [[mkRec 0]] [Entry.header] =
      [Entry.header] ++ [[mkRec 0]].flatten.map Entry.data :=
  (C9_header_exactly_once [[mkRec 0]] [Entry.header] (by simp)).2.2.2

/-- Claim C5: page- and query-level failure isolation in the harvester.
(a) The page loop's output is per-page: every page contributes exactly its
own rows when it succeeds and nothing when it fails, independent of the
other pages — a failing page is skipped and all remaining pages are still
fetched.  (b) A query whose initial fetch or count read raises is skipped
(only the header, already written by the open writer if the destination was
empty, remains) and the harvest continues with the next finalized query.
(c) A successful query contributes its pages through the sink writer and
the harvest likewise continues. -/
theorem C5_failure_isolation :
    (∀ (pages : ℕ → PageOutcome) (i k : ℕ),
        fetchPagesLoop pages i k =
          (List.range' i k).filterMap (fun j => pageRows (pages j)))
    ∧ (∀ (runs : ℕ → Option ℕ × (ℕ → PageOutcome)) (q : ℕ × ℕ)
          (rest : List (ℕ × ℕ)) (k : ℕ) (csv : List Entry),
        (runs k).1 = none →
        harvestQueries runs (q :: rest) k csv =
          harvestQueries runs rest (k + 1)
            (if csv.isEmpty then [Entry.header] else csv))
    ∧ (∀ (runs : ℕ → Option ℕ × (ℕ → PageOutcome)) (q : ℕ × ℕ)
          (rest : List (ℕ × ℕ)) (k : ℕ) (csv : List Entry) (count : ℕ),
        (runs k).1 = some count →
        harvestQueries runs (q :: rest) k csv =
          harvestQueries runs rest (k + 1)
            (write_results_to_csv
              (fetchPagesLoop (runs k).2 1 (compute_number_of_pages count)) csv)) := by
  refine ⟨?_, ?_, ?_⟩
  · intro pages i k
    induction k generalizing i with
    | zero => rfl
    | succ k ih =>
      rw [List.range'_succ, List.filterMap_cons]
      cases h : pages i <;>
        simp only [fetchPagesLoop, h, pageRows, ih]
  · intro runs q rest k csv h
    simp only [harvestQueries, fetch_search_request_results, h, Option.map_none']
  · intro runs q rest k csv count h
    simp only [harvestQueries, fetch_search_request_results, h, Option.map_some']

theorem C5_failure_isolation_witness :
    fetchPagesLoop pagesC5 1 5 = [[mkRec 1], [mkRec 2], [mkRec 4], [mkRec 5]] ∧
    harvestQueries runsC5 [(0, 0), (1, 1)] 0 [] =
      [Entry.header, Entry.data (mkRec 1), Entry.data (mkRec 2),
        Entry.data (mkRec 4), Entry.data (mkRec 5), Entry.data (mkRec 10)] := by
  constructor
  · rw [C5_failure_isolation.1 pagesC5 1 5]
    decide
  · rw [C5_failure_isolation.2.2 runsC5 (0, 0) [(1, 1)] 0 [] 450 rfl]
    decide

/-- A completed partitioner run only ever appends to the finalized-query
list it started from. -/
lemma finalizedMono (O : ℕ → FetchOutcome) :
    ∀ (fuel : ℕ) (tasks : List (ℕ × ℕ)) (st st' : PartState),
      generate_search_requests O fuel tasks st = .ok st' →
      ∃ Δ, st'.finalized = st.finalized ++ Δ := by
  intro fuel
  induction fuel with
  | zero =>
    intro tasks st st' hrun
    cases tasks with
    | nil =>
      rw [genReqs_nil] at hrun
      cases hrun
      exact ⟨[], by simp⟩
    | cons head rest => exact absurd hrun (by simp [generate_search_requests])
  | succ fuel ih =>
    intro tasks st st' hrun
    cases tasks with
    | nil =>
      rw [genReqs_nil] at hrun
      cases hrun
      exact ⟨[], by simp⟩
    | cons head rest =>
      obtain ⟨s, e⟩ := head
      rw [genReqs_cons] at hrun
      split at hrun
      · cases hrun
      · split at hrun
        · cases hrun
        · cases hrun
        · split at hrun
          · obtain ⟨Δ, hΔ⟩ := ih rest _ st' hrun
            exact ⟨(s, e) :: Δ, by simp [finalizeStep] at hΔ; simp [hΔ]⟩
          · exact ih _ (splitStep st s e) st' hrun
        · exact ih _ (splitStep st s e) st' hrun

/-- Claim C10 counterexample: two consecutive harvests on the same scraper
instance.  The first (range `[0, 0]`) finalizes one query.  The second
(range `[5, 5]`) finalizes only `(5, 5)` during its own partitioning, yet
its harvester paginates over BOTH accumulated queries — the record
`mkRec 0`, which only the first harvest's query produces, is written again
by the second harvest — so the set of queries the second invocation
paginates over is not the set finalized during its own partitioning
phase. -/
theorem C10_accumulation_counterexample :
    custom_text_search oracleC10 runsC10 3 0 0 [] [] =
      some ([(0, 0)], [Entry.header, Entry.data (mkRec 0)]) ∧
    custom_text_search oracleC10 runsC10 3 5 5 [(0, 0)] [] =
      some ([(0, 0), (5, 5)],
        [Entry.header, Entry.data (mkRec 0), Entry.data (mkRec 1)]) ∧
    [(0, 0), (5, 5)] ≠ [(5, 5)] := by
  decide

/-- Claim C10 amended: `self.search_requests` is only ever appended to, and
the harvester of an invocation paginates over the instance's whole
accumulated list — the queries finalized by earlier invocations followed by
this invocation's own; the two coincide exactly when the instance is fresh
(`search_requests = []`). -/
theorem C10_accumulated_queries_amended (O : ℕ → FetchOutcome)
    (runs : ℕ → Option ℕ × (ℕ → PageOutcome)) (fuel s e : ℕ)
    (scr : List (ℕ × ℕ)) (csv : List Entry) (st' : PartState)
    (hrun : generate_search_requests O fuel [(s, e)] ⟨0, scr, false⟩ = .ok st') :
    ∃ Δ, st'.finalized = scr ++ Δ ∧
      custom_text_search O runs fuel s e scr csv =
        some (scr ++ Δ, harvestQueries runs (scr ++ Δ) 0 csv) := by
  obtain ⟨Δ, hΔ⟩ := finalizedMono O fuel [(s, e)] ⟨0, scr, false⟩ st' hrun
  refine ⟨Δ, hΔ, ?_⟩
  unfold custom_text_search
  rw [hrun]
  show some (st'.finalized, harvestQueries runs st'.finalized 0 csv) = _
  rw [hΔ]

theorem C10_accumulated_queries_amended_witness :
    ∃ Δ, (PartState.mk 1 [(5, 5)] false).finalized = [] ++ Δ ∧
      custom_text_search oracleC10 runsC10 3 5 5 [] [] =
        some ([] ++ Δ, harvestQueries runsC10 ([] ++ Δ) 0 []) :=
  C10_accumulated_queries_amended oracleC10 runsC10 3 5 5 [] [] ⟨1, [(5, 5)], false⟩
    (by decide)

lemma urlencode_cons2 (k v : List Char) (p : List Char × List Char)
    (rest : List (List Char × List Char)) :
    urlencode ((k, v) :: p :: rest) =
      (quote_plus k ++ '=' :: quote_plus v) ++ '&' :: urlencode (p :: rest) :=
  rfl

lemma urlencode_single (k v : List Char) :
    urlencode [(k, v)] = quote_plus k ++ '=' :: quote_plus v := by
  show (quote_plus k ++ '=' :: quote_plus v) ++ [] = _
  rw [List.append_nil]

/-- Every request string built from the five mandatory pairs contains the
`&page=1` field when the page value is `1`, whatever optional pairs
follow. -/
lemma urlencode_contains_page1 (q d1 d2 : List Char)
    (tail : List (List Char × List Char)) :
    ContainsSeq "&page=1".toList
      (urlencode (("q".toList, q) :: ("dateRange".toList, "custom".toList) ::
        ("startdt".toList, d1) :: ("enddt".toList, d2) ::
        ("page".toList, natToDec 1) :: tail)) := by
  have hpat : "&page=1".toList = '&' :: "page=1".toList := rfl
  have hp : quote_plus "page".toList ++ '=' :: quote_plus (natToDec 1) =
      "page=1".toList := by decide
  rw [urlencode_cons2, urlencode_cons2, urlencode_cons2, urlencode_cons2, ContainsSeq, hpat]
  cases tail with
  | nil =>
    rw [urlencode_single, hp]
    refine ⟨(quote_plus "q".toList ++ '=' :: quote_plus q) ++
      '&' :: ((quote_plus "dateRange".toList ++ '=' :: quote_plus "custom".toList) ++
      '&' :: ((quote_plus "startdt".toList ++ '=' :: quote_plus d1) ++
      '&' :: (quote_plus "enddt".toList ++ '=' :: quote_plus d2))), [], ?_⟩
    simp [List.append_assoc]
  | cons p rest =>
    rw [urlencode_cons2, hp]
    refine ⟨(quote_plus "q".toList ++ '=' :: quote_plus q) ++
      '&' :: ((quote_plus "dateRange".toList ++ '=' :: quote_plus "custom".toList) ++
      '&' :: ((quote_plus "startdt".toList ++ '=' :: quote_plus d1) ++
      '&' :: (quote_plus "enddt".toList ++ '=' :: quote_plus d2))),
      '&' :: urlencode (p :: rest), ?_⟩
    simp [List.append_assoc]

/-- Claim C3 counterexample: a below-cap interval is finalized, and the
query string the partitioner appends for it — `_generate_request_args`
called with `page_number=1` (`edgar.py` lines 231-239, 257) — DOES contain a
page-number field, namely `&page=1`. -/
theorem C3_page_field_counterexample :
    generate_search_requests oracleBelow 1 [(0, 0)] initPartState =
      .ok ⟨1, [(0, 0)], false⟩ ∧
    finalized_request_args ["apple".toList] none none false toDateC3 (0, 0) =
      .ok "q=apple&dateRange=custom&startdt=2020-01-01&enddt=2020-01-01&page=1".toList ∧
    ContainsSeq "&page=1".toList
      "q=apple&dateRange=custom&startdt=2020-01-01&enddt=2020-01-01&page=1".toList := by
  refine ⟨by decide, by decide,
    "q=apple&dateRange=custom&startdt=2020-01-01&enddt=2020-01-01".toList, [], ?_⟩
  decide

/-- Claim C3 amended: the query string appended for every finalized
interval always carries the page-number field `page=1` (the partitioner
encodes with `page_number=1`); pagination later appends a second `&page=i`
to it rather than replacing it. -/
theorem C3_page_field_amended (kw : List (List Char))
    (ent cat : Option (List Char)) (ex : Bool) (toDate : ℕ → SDate) (p : ℕ × ℕ)
    (out : List Char)
    (h : finalized_request_args kw ent cat ex toDate p = .ok out) :
    ContainsSeq "&page=1".toList out := by
  unfold finalized_request_args generate_request_args at h
  split at h
  · cases h
  · split at h
    · split at h
      · cases h
        exact urlencode_contains_page1 _ _ _ _
      · split at h
        · cases h
          exact urlencode_contains_page1 _ _ _ _
        · cases h
    · cases h
      exact urlencode_contains_page1 _ _ _ _

theorem C3_page_field_amended_witness :
    ContainsSeq "&page=1".toList
      "q=apple&dateRange=custom&startdt=2020-01-01&enddt=2020-01-01&page=1".toList :=
  C3_page_field_amended ["apple".toList] none none false toDateC3 (0, 0) _ (by decide)

lemma natToDecFuel_stable :
    ∀ (f₁ : ℕ), ∀ (f₂ n : ℕ), n < f₁ → n < f₂ →
      natToDecFuel f₁ n = natToDecFuel f₂ n := by
  intro f₁
  induction f₁ with
  | zero => intro f₂ n h₁ _; omega
  | succ f₁ ih =>
    intro f₂ n h₁ h₂
    cases f₂ with
    | zero => omega
    | succ f₂ =>
      show natToDecFuel (f₁ + 1) n = natToDecFuel (f₂ + 1) n
      simp only [natToDecFuel]
      by_cases hn : n < 10
      · rw [if_pos hn, if_pos hn]
      · rw [if_neg hn, if_neg hn, ih f₂ (n / 10) (by omega) (by omega)]

lemma natToDec_eq (n : ℕ) :
    natToDec n = if n < 10 then [digitChar n] else natToDec (n / 10) ++ [digitChar (n % 10)] := by
  show natToDecFuel (n + 1) n = _
  rw [natToDecFuel]
  by_cases hn : n < 10
  · rw [if_pos hn, if_pos hn]
  · rw [if_neg hn, if_neg hn]
    congr 1
    exact natToDecFuel_stable n (n / 10 + 1) (n / 10) (by omega) (by omega)

lemma digitVal_digitChar {a : ℕ} (ha : a < 10) : digitVal (digitChar a) = a := by
  interval_cases a <;> decide

lemma digitChar_inj {a b : ℕ} (ha : a < 10) (hb : b < 10)
    (h : digitChar a = digitChar b) : a = b := by
  have := congrArg digitVal h
  rwa [digitVal_digitChar ha, digitVal_digitChar hb] at this

lemma digitChar_isDigit {a : ℕ} (ha : a < 10) : isDigitCh (digitChar a) = true := by
  interval_cases a <;> decide

lemma hexVal_hexChar {a : ℕ} (ha : a < 16) : hexVal (hexChar a) = a := by
  interval_cases a <;> decide

lemma hexChar_ne_amp {a : ℕ} (ha : a < 16) : hexChar a ≠ '&' := by
  interval_cases a <;> decide

lemma hexChar_ascii {a : ℕ} (ha : a < 16) : (hexChar a).toNat < 128 := by
  interval_cases a <;> decide

lemma char_toNat_inj {c₁ c₂ : Char} (h : c₁.toNat = c₂.toNat) : c₁ = c₂ := by
  have h₁ := Char.ofNat_toNat c₁
  rw [h, Char.ofNat_toNat] at h₁
  exact h₁.symm

/-- Splitting a concatenation at the boundary where a character property
stops holding: if every character of the prefixes satisfies `Q` and the
suffixes are empty or start with a character violating `Q`, concatenation is
injective. -/
lemma boundary_split (Q : Char → Prop) :
    ∀ (a₁ a₂ b₁ b₂ : List Char),
      (∀ c ∈ a₁, Q c) → (∀ c ∈ a₂, Q c) →
      (∀ c, b₁.head? = some c → ¬ Q c) → (∀ c, b₂.head? = some c → ¬ Q c) →
      a₁ ++ b₁ = a₂ ++ b₂ → a₁ = a₂ ∧ b₁ = b₂ := by
  intro a₁
  induction a₁ with
  | nil =>
    intro a₂ b₁ b₂ _ ha₂ hb₁ _ h
    cases a₂ with
    | nil => exact ⟨rfl, h⟩
    | cons c t =>
      rw [List.nil_append] at h
      exfalso
      exact hb₁ c (by rw [h]; rfl) (ha₂ c (List.mem_cons_self _ _))
  | cons c t ih =>
    intro a₂ b₁ b₂ ha₁ ha₂ hb₁ hb₂ h
    cases a₂ with
    | nil =>
      rw [List.nil_append] at h
      exfalso
      exact hb₂ c (by rw [← h]; rfl) (ha₁ c (List.mem_cons_self _ _))
    | cons c' t' =>
      rw [List.cons_append, List.cons_append, List.cons.injEq] at h
      obtain ⟨rfl, h⟩ := h
      obtain ⟨h1, h2⟩ := ih t' b₁ b₂ (fun x hx => ha₁ x (List.mem_cons_of_mem _ hx))
        (fun x hx => ha₂ x (List.mem_cons_of_mem _ hx)) hb₁ hb₂ h
      exact ⟨by rw [h1], h2⟩

lemma natToDec_ne_nil (n : ℕ) : natToDec n ≠ [] := by
  rw [natToDec_eq]
  split
  · simp
  · simp

lemma natToDec_digits (n : ℕ) : ∀ c ∈ natToDec n, isDigitCh c = true := by
  induction n using Nat.strong_induction_on with
  | _ n ih =>
    rw [natToDec_eq]
    split
    · next hn =>
      intro c hc
      rw [List.mem_singleton] at hc
      subst hc
      exact digitChar_isDigit hn
    · next hn =>
      intro c hc
      rcases List.mem_append.mp hc with h | h
      · exact ih (n / 10) (by omega) c h
      · rw [List.mem_singleton] at h
        subst h
        exact digitChar_isDigit (Nat.mod_lt _ (by omega))

lemma natToDec_inj : ∀ m n : ℕ, natToDec m = natToDec n → m = n := by
  intro m
  induction m using Nat.strong_induction_on with
  | _ m ih =>
    intro n h
    rw [natToDec_eq m, natToDec_eq n] at h
    by_cases hm : m < 10 <;> by_cases hn : n < 10
    · rw [if_pos hm, if_pos hn] at h
      rw [List.cons.injEq] at h
      exact digitChar_inj hm hn h.1
    · rw [if_pos hm, if_neg hn] at h
      exfalso
      have hlen := congrArg List.length h
      have hne := natToDec_ne_nil (n / 10)
      rw [List.length_append] at hlen
      cases hx : natToDec (n / 10) with
      | nil => exact hne hx
      | cons a t => rw [hx] at hlen; simp at hlen
    · rw [if_neg hm, if_pos hn] at h
      exfalso
      have hlen := congrArg List.length h
      have hne := natToDec_ne_nil (m / 10)
      rw [List.length_append] at hlen
      cases hx : natToDec (m / 10) with
      | nil => exact hne hx
      | cons a t => rw [hx] at hlen; simp at hlen
    · rw [if_neg hm, if_neg hn] at h
      obtain ⟨h1, h2⟩ := List.append_inj' h (by rfl)
      rw [List.cons.injEq] at h2
      have hd : m % 10 = n % 10 :=
        digitChar_inj (Nat.mod_lt _ (by omega)) (Nat.mod_lt _ (by omega)) h2.1
      have hq : m / 10 = n / 10 := ih (m / 10) (by omega) (n / 10) h1
      omega

lemma encAll_inj (f : Char → List Char) (P : Char → Prop)
    (hne : ∀ c, P c → f c ≠ [])
    (hdet : ∀ c₁ c₂ t₁ t₂, P c₁ → P c₂ → f c₁ ++ t₁ = f c₂ ++ t₂ → c₁ = c₂) :
    ∀ s₁ s₂, (∀ c ∈ s₁, P c) → (∀ c ∈ s₂, P c) →
      encAll f s₁ = encAll f s₂ → s₁ = s₂ := by
  intro s₁
  induction s₁ with
  | nil =>
    intro s₂ _ h₂ h
    cases s₂ with
    | nil => rfl
    | cons c t =>
      exfalso
      have : f c ++ encAll f t = [] := h.symm
      exact hne c (h₂ c (List.mem_cons_self _ _)) (List.append_eq_nil.mp this).1
  | cons c t ih =>
    intro s₂ h₁ h₂ h
    cases s₂ with
    | nil =>
      exfalso
      have : f c ++ encAll f t = [] := h
      exact hne c (h₁ c (List.mem_cons_self _ _)) (List.append_eq_nil.mp this).1
    | cons c' t' =>
      have hc : c = c' :=
        hdet c c' (encAll f t) (encAll f t') (h₁ c (List.mem_cons_self _ _))
          (h₂ c' (List.mem_cons_self _ _)) h
      subst hc
      have ht : encAll f t = encAll f t' := by
        have h' : f c ++ encAll f t = f c ++ encAll f t' := h
        exact List.append_cancel_left h'
      rw [ih t' (fun x hx => h₁ x (List.mem_cons_of_mem _ hx))
        (fun x hx => h₂ x (List.mem_cons_of_mem _ hx)) ht]

lemma quoteChar_det {c₁ c₂ : Char} (h₁ : c₁.toNat < 128) (h₂ : c₂.toNat < 128)
    {t₁ t₂ : List Char} (h : quoteChar c₁ ++ t₁ = quoteChar c₂ ++ t₂) : c₁ = c₂ := by
  unfold quoteChar pctEncodeChar at h
  cases hs₁ : isQuoteSafe c₁ <;> cases hs₂ : isQuoteSafe c₂ <;>
    rw [hs₁, hs₂] at h <;> simp only [if_true, if_false, Bool.false_eq_true,
      List.cons_append, List.nil_append, List.cons.injEq] at h
  · apply char_toNat_inj
    have hv1 := h.2.1
    have hv2 := h.2.2.1
    have e1 : c₁.toNat / 16 = c₂.toNat / 16 := by
      have := congrArg hexVal hv1
      rwa [hexVal_hexChar (by omega), hexVal_hexChar (by omega)] at this
    have e2 : c₁.toNat % 16 = c₂.toNat % 16 := by
      have := congrArg hexVal hv2
      rwa [hexVal_hexChar (by omega), hexVal_hexChar (by omega)] at this
    omega
  · exfalso
    have hc := h.1
    rw [← hc] at hs₂
    exact absurd hs₂ (by decide)
  · exfalso
    have hc := h.1
    rw [hc] at hs₁
    exact absurd hs₁ (by decide)
  · exact h.1

lemma qpDecode_correct {c : Char} (h : c.toNat < 128) (t : List Char) :
    qpDecodeHead (quotePlusChar c ++ t) = some c := by
  by_cases e : c = ' '
  · subst e
    have hq : quotePlusChar ' ' = ['+'] := by decide
    rw [hq]
    show qpDecodeHead ('+' :: t) = some ' '
    simp only [qpDecodeHead]
    rw [if_pos trivial]
  · have hne : (c == ' ') = false := by simp [e]
    by_cases hs : isQuotePlusSafe c
    · have hq : quotePlusChar c = [c] := by
        unfold quotePlusChar
        rw [hne, if_neg (by simp), if_pos hs]
      rw [hq]
      show qpDecodeHead (c :: t) = some c
      simp only [qpDecodeHead]
      rw [if_neg (fun hc => by rw [hc] at hs; exact absurd hs (by decide)),
        if_neg (fun hc => by rw [hc] at hs; exact absurd hs (by decide))]
    · have hsf : isQuotePlusSafe c = false := by simpa using hs
      have hq : quotePlusChar c = ['%', hexChar (c.toNat / 16), hexChar (c.toNat % 16)] := by
        unfold quotePlusChar pctEncodeChar
        rw [hne, if_neg (by simp), if_neg (by simp [hsf])]
      rw [hq]
      show qpDecodeHead ('%' :: hexChar (c.toNat / 16) :: hexChar (c.toNat % 16) :: t) = some c
      simp only [qpDecodeHead]
      rw [if_pos trivial]
      show some (Char.ofNat (16 * hexVal (hexChar (c.toNat / 16)) +
        hexVal (hexChar (c.toNat % 16)))) = some c
      rw [hexVal_hexChar (by omega), hexVal_hexChar (by omega)]
      have h16 : 16 * (c.toNat / 16) + c.toNat % 16 = c.toNat := by omega
      rw [h16, Char.ofNat_toNat]

lemma quotePlusChar_det {c₁ c₂ : Char} (h₁ : c₁.toNat < 128) (h₂ : c₂.toNat < 128)
    {t₁ t₂ : List Char} (h : quotePlusChar c₁ ++ t₁ = quotePlusChar c₂ ++ t₂) :
    c₁ = c₂ := by
  have hd := congrArg qpDecodeHead h
  rw [qpDecode_correct h₁, qpDecode_correct h₂] at hd
  exact Option.some.inj hd

lemma quoteChar_ne_nil (c : Char) : quoteChar c ≠ [] := by
  unfold quoteChar pctEncodeChar
  split <;> simp

lemma quotePlusChar_ne_nil (c : Char) : quotePlusChar c ≠ [] := by
  unfold quotePlusChar pctEncodeChar
  split
  · simp
  · split <;> simp

lemma quotePlusChar_no_amp {c : Char} (h : c.toNat < 128) : '&' ∉ quotePlusChar c := by
  unfold quotePlusChar pctEncodeChar
  split
  · simp
  · split
    · next hs =>
      rw [List.mem_singleton]
      intro hc
      rw [← hc] at hs
      exact absurd hs (by decide)
    · intro hmem
      rw [List.mem_cons, List.mem_cons, List.mem_singleton] at hmem
      rcases hmem with h1 | h2 | h3
      · exact absurd h1 (by decide)
      · exact hexChar_ne_amp (a := c.toNat / 16) (by omega) h2.symm
      · exact hexChar_ne_amp (a := c.toNat % 16) (by omega) h3.symm

lemma encAll_no_amp {f : Char → List Char} {s : List Char}
    (h : ∀ c ∈ s, '&' ∉ f c) : '&' ∉ encAll f s := by
  induction s with
  | nil => simp [encAll]
  | cons c t ih =>
    show '&' ∉ f c ++ encAll f t
    rw [List.mem_append]
    rintro (hm | hm)
    · exact h c (List.mem_cons_self _ _) hm
    · exact ih (fun x hx => h x (List.mem_cons_of_mem _ hx)) hm

lemma quote_plus_no_amp {s : List Char} (hs : asciiStr s) : '&' ∉ quote_plus s :=
  encAll_no_amp (fun c hc => quotePlusChar_no_amp (hs c hc))

lemma encAll_ascii {f : Char → List Char} {s : List Char}
    (h : ∀ c ∈ s, ∀ x ∈ f c, x.toNat < 128) : asciiStr (encAll f s) := by
  induction s with
  | nil => intro c hc; simp [encAll] at hc
  | cons c t ih =>
    intro x hx
    rcases List.mem_append.mp hx with hm | hm
    · exact h c (List.mem_cons_self _ _) x hm
    · exact ih (fun y hy => h y (List.mem_cons_of_mem _ hy)) x hm

lemma quoteChar_ascii {c : Char} (h : c.toNat < 128) :
    ∀ x ∈ quoteChar c, x.toNat < 128 := by
  unfold quoteChar pctEncodeChar
  split
  · intro x hx; rw [List.mem_singleton] at hx; subst hx; exact h
  · intro x hx
    rw [List.mem_cons, List.mem_cons, List.mem_singleton] at hx
    rcases hx with h1 | h2 | h3
    · subst h1; decide
    · subst h2; exact hexChar_ascii (by omega)
    · subst h3; exact hexChar_ascii (by omega)

lemma quote_ascii {s : List Char} (h : asciiStr s) : asciiStr (quote s) :=
  encAll_ascii (fun c hc => quoteChar_ascii (h c hc))

lemma quote_plus_inj {s₁ s₂ : List Char} (h₁ : asciiStr s₁) (h₂ : asciiStr s₂)
    (h : quote_plus s₁ = quote_plus s₂) : s₁ = s₂ :=
  encAll_inj quotePlusChar (fun c => c.toNat < 128)
    (fun c _ => quotePlusChar_ne_nil c)
    (fun _ _ _ _ hc₁ hc₂ hh => quotePlusChar_det hc₁ hc₂ hh)
    s₁ s₂ h₁ h₂ h

lemma quote_inj {s₁ s₂ : List Char} (h₁ : asciiStr s₁) (h₂ : asciiStr s₂)
    (h : quote s₁ = quote s₂) : s₁ = s₂ :=
  encAll_inj quoteChar (fun c => c.toNat < 128)
    (fun c _ => quoteChar_ne_nil c)
    (fun _ _ _ _ hc₁ hc₂ hh => quoteChar_det hc₁ hc₂ hh)
    s₁ s₂ h₁ h₂ h

lemma quotePlusChar_digit {c : Char} (h : isDigitCh c = true) :
    quotePlusChar c = [c] := by
  have h' : 48 ≤ c.toNat ∧ c.toNat ≤ 57 := by simpa [isDigitCh] using h
  have han : isAlphaNumAscii c = true := by
    unfold isAlphaNumAscii
    simp only [decide_eq_true_eq]
    exact Or.inr (Or.inr h')
  unfold quotePlusChar
  rw [if_neg, if_pos]
  · unfold isQuotePlusSafe
    rw [han]
    rfl
  · intro hsp
    have hc : c = ' ' := eq_of_beq hsp
    rw [hc] at h'
    exact absurd h' (by decide)

lemma quote_plus_fixed {s : List Char} (h : ∀ c ∈ s, quotePlusChar c = [c]) :
    quote_plus s = s := by
  induction s with
  | nil => rfl
  | cons c t ih =>
    show quotePlusChar c ++ quote_plus t = c :: t
    rw [h c (List.mem_cons_self _ _), ih (fun x hx => h x (List.mem_cons_of_mem _ hx))]
    rfl

lemma natToDec_qp_fixed (n : ℕ) : quote_plus (natToDec n) = natToDec n :=
  quote_plus_fixed (fun c hc => quotePlusChar_digit (natToDec_digits n c hc))

lemma strftime_qp_fixed (d : SDate) : quote_plus (strftime d) = strftime d := by
  apply quote_plus_fixed
  intro c hc
  simp only [strftime, pad4, pad2, List.cons_append, List.nil_append, List.mem_cons,
    List.not_mem_nil, or_false] at hc
  have hdash : quotePlusChar '-' = ['-'] := by decide
  rcases hc with rfl | rfl | rfl | rfl | rfl | rfl | rfl | rfl | rfl | rfl <;>
    first
      | exact hdash
      | exact quotePlusChar_digit (digitChar_isDigit (Nat.mod_lt _ (by omega)))

lemma strftime_length (d : SDate) : (strftime d).length = 10 := by
  simp [strftime, pad4, pad2]

lemma strftime_inj {d₁ d₂ : SDate} (h₁ : validDate d₁) (h₂ : validDate d₂)
    (h : strftime d₁ = strftime d₂) : d₁ = d₂ := by
  obtain ⟨y₁, m₁, a₁⟩ := d₁
  obtain ⟨y₂, m₂, a₂⟩ := d₂
  obtain ⟨hy₁, hy₁', _, hm₁, _, ha₁⟩ := h₁
  obtain ⟨hy₂, hy₂', _, hm₂, _, ha₂⟩ := h₂
  dsimp only at hy₁ hy₁' hm₁ ha₁ hy₂ hy₂' hm₂ ha₂
  simp only [strftime, pad4, pad2, List.cons_append, List.nil_append,
    List.cons.injEq, and_true, true_and] at h
  obtain ⟨e1, e2, e3, e4, e5, e6, e7, e8⟩ := h
  have d10 : ∀ x : ℕ, x % 10 < 10 := fun x => Nat.mod_lt _ (by omega)
  have v1 := digitChar_inj (d10 _) (d10 _) e1
  have v2 := digitChar_inj (d10 _) (d10 _) e2
  have v3 := digitChar_inj (d10 _) (d10 _) e3
  have v4 := digitChar_inj (d10 _) (d10 _) e4
  have v5 := digitChar_inj (d10 _) (d10 _) e5
  have v6 := digitChar_inj (d10 _) (d10 _) e6
  have v7 := digitChar_inj (d10 _) (d10 _) e7
  have v8 := digitChar_inj (d10 _) (d10 _) e8
  simp only [SDate.mk.injEq]
  refine ⟨by omega, by omega, by omega⟩

lemma lookupCategory_inj {k₁ k₂ c : List Char}
    (h₁ : lookupCategory k₁ = some c) (h₂ : lookupCategory k₂ = some c) : k₁ = k₂ := by
  unfold lookupCategory at h₁ h₂
  cases hf₁ : FILING_CATEGORIES_MAPPING.find? (fun p => p.1 == k₁) with
  | none => rw [hf₁] at h₁; cases h₁
  | some pr₁ =>
    cases hf₂ : FILING_CATEGORIES_MAPPING.find? (fun p => p.1 == k₂) with
    | none => rw [hf₂] at h₂; cases h₂
    | some pr₂ =>
      rw [hf₁] at h₁
      rw [hf₂] at h₂
      simp only [Option.map_some'] at h₁ h₂
      have hp₁ := List.find?_some hf₁
      have hp₂ := List.find?_some hf₂
      have hk₁ : pr₁.1 = k₁ := eq_of_beq hp₁
      have hk₂ : pr₂.1 = k₂ := eq_of_beq hp₂
      have hm₁ := List.mem_of_find?_eq_some hf₁
      have hm₂ := List.mem_of_find?_eq_some hf₂
      have hdist : ∀ p ∈ FILING_CATEGORIES_MAPPING, ∀ q ∈ FILING_CATEGORIES_MAPPING,
          p.2 = q.2 → p.1 = q.1 := by decide
      rw [← hk₁, ← hk₂]
      exact hdist pr₁ hm₁ pr₂ hm₂ ((Option.some.inj h₁).trans (Option.some.inj h₂).symm)

lemma lookupCategory_mem {k c : List Char} (h : lookupCategory k = some c) :
    c ∈ FILING_CATEGORIES_MAPPING.map (fun p => p.2) := by
  unfold lookupCategory at h
  cases hf : FILING_CATEGORIES_MAPPING.find? (fun p => p.1 == k) with
  | none => rw [hf] at h; cases h
  | some pr =>
    rw [hf] at h
    simp only [Option.map_some'] at h
    have hc := Option.some.inj h
    rw [← hc]
    exact List.mem_map_of_mem _ (List.mem_of_find?_eq_some hf)

lemma urlencode_page_plus_tail (pv : List Char) (ent code : Option (List Char)) :
    urlencode (("page".toList, pv) :: optTail ent code) =
      "page".toList ++ '=' :: (quote_plus pv ++
        tailStr (Option.map quote_plus ent) (Option.map quote_plus code)) := by
  have hkp : quote_plus ['p', 'a', 'g', 'e'] = ['p', 'a', 'g', 'e'] := by decide
  have hke : quote_plus ['e', 'n', 't', 'i', 't', 'y', 'N', 'a', 'm', 'e'] =
      ['e', 'n', 't', 'i', 't', 'y', 'N', 'a', 'm', 'e'] := by decide
  have hkc : quote_plus ['c', 'a', 't', 'e', 'g', 'o', 'r', 'y'] =
      ['c', 'a', 't', 'e', 'g', 'o', 'r', 'y'] := by decide
  cases ent <;> cases code <;>
    simp [optTail, tailStr, urlencode_single, urlencode_cons2, hkp, hke, hkc,
      List.append_assoc]

lemma tailStr_head_amp (e c : Option (List Char)) :
    ∀ x, (tailStr e c).head? = some x → x = '&' := by
  cases e <;> cases c <;> intro x hx
  · rw [show tailStr none none = [] from rfl] at hx
    cases hx
  · next l =>
    rw [show tailStr none (some l) = '&' :: ("category=".toList ++ l) from rfl] at hx
    exact (Option.some.inj hx).symm
  · next l =>
    rw [show (tailStr (some l) none).head? = some '&' from rfl] at hx
    exact (Option.some.inj hx).symm
  · next l₁ l₂ =>
    rw [show (tailStr (some l₁) (some l₂)).head? = some '&' from rfl] at hx
    exact (Option.some.inj hx).symm

lemma tailStr_head_notdigit (e c : Option (List Char)) :
    ∀ x, (tailStr e c).head? = some x → ¬ isDigitCh x = true := by
  intro x hx
  rw [tailStr_head_amp e c x hx]
  decide

lemma head_amp_not {rest : List Char} :
    ∀ c, ('&' :: rest).head? = some c → ¬ c ≠ '&' := by
  intro c hc
  rw [List.head?_cons] at hc
  exact not_not_intro (Option.some.inj hc).symm

lemma head_nil_not (Q : Char → Prop) :
    ∀ c, ([] : List Char).head? = some c → ¬ Q c := by
  intro c hc
  cases hc

lemma tailStr_inj {E₁ E₂ C₁ C₂ : Option (List Char)}
    (hE₁ : ∀ l, E₁ = some l → '&' ∉ l) (hE₂ : ∀ l, E₂ = some l → '&' ∉ l)
    (h : tailStr E₁ C₁ = tailStr E₂ C₂) : E₁ = E₂ ∧ C₁ = C₂ := by
  cases E₁ with
  | none =>
    cases E₂ with
    | none =>
      cases C₁ with
      | none =>
        cases C₂ with
        | none => exact ⟨rfl, rfl⟩
        | some c₂ => simp [tailStr] at h
      | some c₁ =>
        cases C₂ with
        | none => simp [tailStr] at h
        | some c₂ =>
          simp [tailStr] at h
          exact ⟨rfl, by rw [h]⟩
    | some l₂ => cases C₁ <;> cases C₂ <;> simp [tailStr, List.append_assoc] at h
  | some l₁ =>
    cases E₂ with
    | none => cases C₁ <;> cases C₂ <;> simp [tailStr, List.append_assoc] at h
    | some l₂ =>
      have hl₁ : ∀ c ∈ l₁, c ≠ '&' := fun c hc hcc => hE₁ l₁ rfl (hcc ▸ hc)
      have hl₂ : ∀ c ∈ l₂, c ≠ '&' := fun c hc hcc => hE₂ l₂ rfl (hcc ▸ hc)
      cases C₁ with
      | none =>
        cases C₂ with
        | none =>
          simp [tailStr] at h
          exact ⟨by rw [h], rfl⟩
        | some c₂ =>
          simp [tailStr, List.append_assoc] at h
          obtain ⟨_, hc⟩ := boundary_split (fun c => c ≠ '&') l₁ l₂ [] _
            hl₁ hl₂ (head_nil_not _) head_amp_not (by rw [List.append_nil]; exact h)
          cases hc
      | some c₁ =>
        cases C₂ with
        | none =>
          simp [tailStr, List.append_assoc] at h
          obtain ⟨_, hc⟩ := boundary_split (fun c => c ≠ '&') l₁ l₂ _ []
            hl₁ hl₂ head_amp_not (head_nil_not _) (by rw [List.append_nil]; exact h)
          cases hc
        | some c₂ =>
          simp [tailStr, List.append_assoc] at h
          obtain ⟨he, hc⟩ := boundary_split (fun c => c ≠ '&') l₁ l₂ _ _
            hl₁ hl₂ head_amp_not head_amp_not h
          simp only [List.cons.injEq, true_and] at hc
          refine ⟨by rw [he], ?_⟩
          rw [hc]

lemma request_encoding_inj
    (j₁ j₂ : List Char) (ent₁ ent₂ code₁ code₂ : Option (List Char))
    (sd₁ sd₂ ed₁ ed₂ : SDate) (pg₁ pg₂ : ℕ)
    (hj₁ : asciiStr j₁) (hj₂ : asciiStr j₂)
    (hent₁ : ∀ l, ent₁ = some l → asciiStr l) (hent₂ : ∀ l, ent₂ = some l → asciiStr l)
    (hcode₁ : ∀ c, code₁ = some c → c ∈ FILING_CATEGORIES_MAPPING.map (fun p => p.2))
    (hcode₂ : ∀ c, code₂ = some c → c ∈ FILING_CATEGORIES_MAPPING.map (fun p => p.2))
    (hsd₁ : validDate sd₁) (hsd₂ : validDate sd₂)
    (hed₁ : validDate ed₁) (hed₂ : validDate ed₂)
    (h : urlencode (("q".toList, quote j₁) :: ("dateRange".toList, "custom".toList) ::
        ("startdt".toList, strftime sd₁) :: ("enddt".toList, strftime ed₁) ::
        ("page".toList, natToDec pg₁) :: optTail ent₁ code₁) =
      urlencode (("q".toList, quote j₂) :: ("dateRange".toList, "custom".toList) ::
        ("startdt".toList, strftime sd₂) :: ("enddt".toList, strftime ed₂) ::
        ("page".toList, natToDec pg₂) :: optTail ent₂ code₂)) :
    j₁ = j₂ ∧ ent₁ = ent₂ ∧ code₁ = code₂ ∧ sd₁ = sd₂ ∧ ed₁ = ed₂ ∧ pg₁ = pg₂ := by
  have hkq : quote_plus ['q'] = ['q'] := by decide
  have hkd : quote_plus ['d', 'a', 't', 'e', 'R', 'a', 'n', 'g', 'e'] =
      ['d', 'a', 't', 'e', 'R', 'a', 'n', 'g', 'e'] := by decide
  have hkc : quote_plus ['c', 'u', 's', 't', 'o', 'm'] =
      ['c', 'u', 's', 't', 'o', 'm'] := by decide
  have hks : quote_plus ['s', 't', 'a', 'r', 't', 'd', 't'] =
      ['s', 't', 'a', 'r', 't', 'd', 't'] := by decide
  have hke : quote_plus ['e', 'n', 'd', 'd', 't'] = ['e', 'n', 'd', 'd', 't'] := by decide
  simp only [urlencode_cons2, urlencode_page_plus_tail, strftime_qp_fixed,
    natToDec_qp_fixed] at h
  simp [hkq, hkd, hkc, hks, hke, List.append_assoc, List.cons.injEq] at h
  obtain ⟨hq, hrest⟩ := boundary_split (fun c => c ≠ '&')
    (quote_plus (quote j₁)) (quote_plus (quote j₂)) _ _
    (fun c hc hcc => quote_plus_no_amp (quote_ascii hj₁) (hcc ▸ hc))
    (fun c hc hcc => quote_plus_no_amp (quote_ascii hj₂) (hcc ▸ hc))
    head_amp_not head_amp_not h
  have hj : j₁ = j₂ :=
    quote_inj hj₁ hj₂ (quote_plus_inj (quote_ascii hj₁) (quote_ascii hj₂) hq)
  simp only [List.cons.injEq, true_and] at hrest
  obtain ⟨hd1, hrest⟩ := List.append_inj hrest (by rw [strftime_length, strftime_length])
  have hsd : sd₁ = sd₂ := strftime_inj hsd₁ hsd₂ hd1
  simp only [List.cons.injEq, true_and] at hrest
  obtain ⟨hd2, hrest⟩ := List.append_inj hrest (by rw [strftime_length, strftime_length])
  have hed : ed₁ = ed₂ := strftime_inj hed₁ hed₂ hd2
  simp only [List.cons.injEq, true_and] at hrest
  obtain ⟨hp, htail⟩ := boundary_split (fun c => isDigitCh c = true)
    (natToDec pg₁) (natToDec pg₂) _ _
    (natToDec_digits pg₁) (natToDec_digits pg₂)
    (tailStr_head_notdigit _ _) (tailStr_head_notdigit _ _) hrest
  have hpg : pg₁ = pg₂ := natToDec_inj pg₁ pg₂ hp
  obtain ⟨hentm, hcodem⟩ := tailStr_inj
    (by
      intro l hl
      cases ent₁ with
      | none => cases hl
      | some x =>
        simp only [Option.map_some', Option.some.injEq] at hl
        rw [← hl]
        exact quote_plus_no_amp (hent₁ x rfl))
    (by
      intro l hl
      cases ent₂ with
      | none => cases hl
      | some x =>
        simp only [Option.map_some', Option.some.injEq] at hl
        rw [← hl]
        exact quote_plus_no_amp (hent₂ x rfl))
    htail
  have hent : ent₁ = ent₂ := by
    cases ent₁ with
    | none =>
      cases ent₂ with
      | none => rfl
      | some y => simp at hentm
    | some x =>
      cases ent₂ with
      | none => simp at hentm
      | some y =>
        simp only [Option.map_some', Option.some.injEq] at hentm
        rw [quote_plus_inj (hent₁ x rfl) (hent₂ y rfl) hentm]
  have hcode : code₁ = code₂ := by
    have hfix : ∀ v ∈ FILING_CATEGORIES_MAPPING.map (fun p => p.2),
        quote_plus v = v := by decide
    cases code₁ with
    | none =>
      cases code₂ with
      | none => rfl
      | some y => simp at hcodem
    | some x =>
      cases code₂ with
      | none => simp at hcodem
      | some y =>
        simp only [Option.map_some', Option.some.injEq] at hcodem
        rw [hfix x (hcode₁ x rfl), hfix y (hcode₂ y rfl)] at hcodem
        rw [hcodem]
  exact ⟨hj, hent, hcode, hsd, hed, hpg⟩

lemma entityPairs_nonempty {l : List Char} (h : l ≠ []) :
    entityPairs (some l) = [("entityName".toList, l)] := by
  show (if l.isEmpty = true then [] else [("entityName".toList, l)]) = _
  rw [if_neg (fun he => h (List.isEmpty_iff.mp he))]

lemma generate_request_args_ok_shape (kw : List (List Char))
    (ent cat : Option (List Char)) (ex : Bool) (sd ed : SDate) (pg : ℕ)
    (o : List Char) (hE : entOk ent) (hC : catOk cat)
    (h : generate_request_args kw ent cat ex sd ed pg = .ok o) :
    ∃ code : Option (List Char),
      (∀ c, code = some c → c ∈ FILING_CATEGORIES_MAPPING.map (fun p => p.2)) ∧
      (code = none ↔ cat = none) ∧
      (∀ k c, cat = some k → code = some c → lookupCategory k = some c) ∧
      o = urlencode (("q".toList, quote (joinedKeywords kw ex)) ::
        ("dateRange".toList, "custom".toList) :: ("startdt".toList, strftime sd) ::
        ("enddt".toList, strftime ed) :: ("page".toList, natToDec pg) ::
        optTail ent code) := by
  unfold generate_request_args at h
  split at h
  · cases h
  · split at h
    · next k =>
      split at h
      · next hemp => exact absurd (List.isEmpty_iff.mp hemp) hC
      · split at h
        · next code hlk =>
          cases h
          refine ⟨some code, ?_, ?_, ?_, ?_⟩
          · intro c hc
            rw [← Option.some.inj hc]
            exact lookupCategory_mem hlk
          · simp
          · intro k' c hk' hc
            rw [← Option.some.inj hk', ← Option.some.inj hc]
            exact hlk
          · cases ent with
            | none => rfl
            | some l =>
              rw [entityPairs_nonempty hE.1]
              rfl
        · cases h
    · cases h
      refine ⟨none, ?_, ?_, ?_, ?_⟩
      · intro c hc
        cases hc
      · simp
      · intro k c hk
        cases hk
      · cases ent with
        | none => rfl
        | some l =>
          rw [entityPairs_nonempty hE.1]
          rfl

theorem C8_encoder_det_inj_amended :
    (∀ (kw : List (List Char)) (ent cat : Option (List Char)) (ex : Bool)
        (sd ed : SDate) (pg : ℕ),
      generate_request_args kw ent cat ex sd ed pg =
        generate_request_args kw ent cat ex sd ed pg)
    ∧ (∀ (kw₁ kw₂ : List (List Char)) (ent₁ ent₂ cat₁ cat₂ : Option (List Char))
        (ex₁ ex₂ : Bool) (sd₁ sd₂ ed₁ ed₂ : SDate) (pg₁ pg₂ : ℕ) (out : List Char),
        asciiStr (joinedKeywords kw₁ ex₁) → asciiStr (joinedKeywords kw₂ ex₂) →
        entOk ent₁ → entOk ent₂ → catOk cat₁ → catOk cat₂ →
        validDate sd₁ → validDate sd₂ → validDate ed₁ → validDate ed₂ →
        generate_request_args kw₁ ent₁ cat₁ ex₁ sd₁ ed₁ pg₁ = .ok out →
        generate_request_args kw₂ ent₂ cat₂ ex₂ sd₂ ed₂ pg₂ = .ok out →
        joinedKeywords kw₁ ex₁ = joinedKeywords kw₂ ex₂ ∧ ent₁ = ent₂ ∧
          cat₁ = cat₂ ∧ sd₁ = sd₂ ∧ ed₁ = ed₂ ∧ pg₁ = pg₂) := by
  constructor
  · intro kw ent cat ex sd ed pg
    rfl
  · intro kw₁ kw₂ ent₁ ent₂ cat₁ cat₂ ex₁ ex₂ sd₁ sd₂ ed₁ ed₂ pg₁ pg₂ out
      hj₁ hj₂ hE₁ hE₂ hC₁ hC₂ hv₁ hv₂ hv₃ hv₄ h₁ h₂
    obtain ⟨code₁, hcm₁, hcn₁, hcl₁, ho₁⟩ :=
      generate_request_args_ok_shape kw₁ ent₁ cat₁ ex₁ sd₁ ed₁ pg₁ out hE₁ hC₁ h₁
    obtain ⟨code₂, hcm₂, hcn₂, hcl₂, ho₂⟩ :=
      generate_request_args_ok_shape kw₂ ent₂ cat₂ ex₂ sd₂ ed₂ pg₂ out hE₂ hC₂ h₂
    have hu := ho₁.symm.trans ho₂
    have hEa₁ : ∀ l, ent₁ = some l → asciiStr l := by
      intro l hl
      cases ent₁ with
      | none => cases hl
      | some x => exact (Option.some.inj hl) ▸ hE₁.2
    have hEa₂ : ∀ l, ent₂ = some l → asciiStr l := by
      intro l hl
      cases ent₂ with
      | none => cases hl
      | some x => exact (Option.some.inj hl) ▸ hE₂.2
    obtain ⟨hj, hent, hcode, hsd, hed, hpg⟩ :=
      request_encoding_inj (joinedKeywords kw₁ ex₁) (joinedKeywords kw₂ ex₂)
        ent₁ ent₂ code₁ code₂ sd₁ sd₂ ed₁ ed₂ pg₁ pg₂
        hj₁ hj₂ hEa₁ hEa₂ hcm₁ hcm₂ hv₁ hv₂ hv₃ hv₄ hu
    have hcat : cat₁ = cat₂ := by
      cases hc1 : code₁ with
      | none =>
        rw [hc1] at hcode
        rw [hcn₁.mp hc1, hcn₂.mp hcode.symm]
      | some c =>
        rw [hc1] at hcode
        cases hk₁ : cat₁ with
        | none =>
          rw [hcn₁.mpr hk₁] at hc1
          cases hc1
        | some k₁ =>
          cases hk₂ : cat₂ with
          | none =>
            rw [hcn₂.mpr hk₂] at hcode
            cases hcode
          | some k₂ =>
            have l₁ := hcl₁ k₁ c hk₁ hc1
            have l₂ := hcl₂ k₂ c hk₂ hcode.symm
            rw [lookupCategory_inj l₁ l₂]
    exact ⟨hj, hent, hcat, hsd, hed, hpg⟩

/-- Claim C8 counterexample: two pairs of differing logical inputs that
encode to identical strings, outside the optional-field omission rules:
the keyword lists `["a b"]` and `["a", "b"]` (joined with a space before
encoding) and, with the exact-match flag, `(["x"], exact)` versus the
literally pre-quoted `(["\"x\""], not exact)`. -/
theorem C8_injectivity_counterexample :
    (generate_request_args ["a b".toList] none none false ⟨2020, 1, 1⟩ ⟨2020, 1, 2⟩ 1 =
      generate_request_args ["a".toList, "b".toList] none none false
        ⟨2020, 1, 1⟩ ⟨2020, 1, 2⟩ 1 ∧
      ["a b".toList] ≠ ["a".toList, "b".toList]) ∧
    (generate_request_args ["x".toList] none none true ⟨2020, 1, 1⟩ ⟨2020, 1, 2⟩ 1 =
      generate_request_args ["\"x\"".toList] none none false ⟨2020, 1, 1⟩ ⟨2020, 1, 2⟩ 1 ∧
      (["x".toList], true) ≠ (["\"x\"".toList], false)) := by
  decide

theorem C8_encoder_det_inj_amended_witness :
    joinedKeywords ["apple".toList] false = joinedKeywords ["apple".toList] false ∧
    (some "Ent".toList : Option (List Char)) = some "Ent".toList ∧
    (some "proxy_materials".toList : Option (List Char)) = some "proxy_materials".toList ∧
    (⟨2020, 1, 1⟩ : SDate) = ⟨2020, 1, 1⟩ ∧ (⟨2020, 12, 31⟩ : SDate) = ⟨2020, 12, 31⟩ ∧
    (2 : ℕ) = 2 :=
  C8_encoder_det_inj_amended.2 ["apple".toList] ["apple".toList]
    (some "Ent".toList) (some "Ent".toList)
    (some "proxy_materials".toList) (some "proxy_materials".toList)
    false false ⟨2020, 1, 1⟩ ⟨2020, 1, 1⟩ ⟨2020, 12, 31⟩ ⟨2020, 12, 31⟩ 2 2
    "q=apple&dateRange=custom&startdt=2020-01-01&enddt=2020-12-31&page=2&entityName=Ent&category=form-cat8".toList
    (by decide) (by decide) (by decide) (by decide) (by decide) (by decide)
    (by decide) (by decide) (by decide) (by decide) (by decide) (by decide)
